import Mathlib

/-!
Verification of the osdump pipeline (osdump.go): a cursor-paginated
OpenSearch index dumper.  A producer repeatedly issues `search_after`
queries, strips the `sort` annotation from every hit, counts it and pushes
it onto a bounded channel; a consumer drains the channel and writes one
JSON document per line to a freshly created output file.

The embedding models JSON values as an inductive type with fastjson's
access semantics (`Get` walks object keys and decimal array indexes,
`GetStringBytes` yields the empty string unless the target is a string,
`Del` removes the first matching key), and models the producer loop over
an oracle list of HTTP responses, the channel as an explicitly scheduled
bounded queue, and the filesystem as an association list of paths.
-/

/-- JSON values as parsed by fastjson.  Numbers are modelled as integers;
object fields keep their order of appearance. -/
inductive Json where
  | null : Json
  | bool : Bool → Json
  | num : Int → Json
  | str : String → Json
  | arr : List Json → Json
  | obj : List (String × Json) → Json

/-- First binding of a key in an object's field list (fastjson `Object.Get`
returns the first match). -/
def lookupField : List (String × Json) → String → Option Json
  | [], _ => none
  | (k, v) :: rest, key => if k = key then some v else lookupField rest key

/-- Decimal digit value of a character, if it is a digit. -/
def digitVal (c : Char) : Option Nat :=
  if c.isDigit then some (c.toNat - 48) else none

def decDigitsAux (acc : Nat) : List Char → Option Nat
  | [] => some acc
  | c :: rest =>
    match digitVal c with
    | some d => decDigitsAux (acc * 10 + d) rest
    | none => none

/-- `strconv.Atoi` on a non-negative decimal key (fastjson rejects
negative or malformed array indexes, yielding nil). -/
def decIndex (s : String) : Option Nat :=
  match s.data with
  | [] => none
  | cs => decDigitsAux 0 cs

/-- One step of fastjson `Value.Get`: object fields are looked up by name,
array elements by the key parsed as a decimal index; any other value or a
missing entry yields nil. -/
def getKey : Json → String → Option Json
  | Json.obj fields, key => lookupField fields key
  | Json.arr xs, key =>
    match decIndex key with
    | some n => xs.get? n
    | none => none
  | _, _ => none

/-- fastjson `Value.Get(keys...)`: walk a path of keys, nil-propagating. -/
def getPath : Json → List String → Option Json
  | v, [] => some v
  | v, key :: rest =>
    match getKey v key with
    | some w => getPath w rest
    | none => none

def sortK : String := "sort"

def hitsK : String := "hits"

def zeroK : String := "0"

def idK : String := "_id"

/-- fastjson `Value.Exists(keys...)`. -/
def jexists (v : Json) (path : List String) : Bool :=
  (getPath v path).isSome

/-- `string(v.GetStringBytes("sort", "0"))`: the sort cursor extracted from
a hit; the empty string when the path is missing or not a string. -/
def sortKey (v : Json) : String :=
  match getPath v [sortK, zeroK] with
  | some (Json.str s) => s
  | _ => ""

/-- Remove the first binding of `key` from an object's field list
(fastjson `Object.Del` deletes the first match and returns). -/
def delFirstField : List (String × Json) → String → List (String × Json)
  | [], _ => []
  | (k, v) :: rest, key =>
    if k = key then rest else (k, v) :: delFirstField rest key

/-- fastjson `Value.Del(key)`: on an object delete the first binding of
`key`; on an array delete the element at the decimal index `key`; no-op
otherwise. -/
def delKey : Json → String → Json
  | Json.obj fields, key => Json.obj (delFirstField fields key)
  | Json.arr xs, key =>
    match decIndex key with
    | some n => Json.arr (xs.take n ++ xs.drop (n + 1))
    | none => Json.arr xs
  | v, _ => v

/-- The mutation `if v.Exists("sort") { v.Del("sort") }` applied to a hit. -/
def stripSort (v : Json) : Json :=
  if jexists v [sortK] then delKey v sortK else v

/-- `GetArray` semantics: the element list when the value is an array,
empty otherwise (fastjson returns nil for missing or non-array values). -/
def jsonArray : Option Json → List Json
  | some (Json.arr xs) => xs
  | _ => []

/-- fastjson `hasSpecialChars`: a string needs the slow escaping path when
it holds a quote, a backslash, or a control character below 0x20.  The
source scans bytes, but every byte of a multi-byte UTF-8 rune is at least
0x80, so the byte scan and this character scan agree. -/
def hasSpecialChars (s : String) : Bool :=
  s.data.any (fun c => c = '"' || c = '\\' || c.toNat < 32)

/-- Go `unicode.IsPrint` as it bears on this development: space and the
ASCII graphic characters print, the control range 0x00-0x1F and DEL
(0x7F) do not.  Runes above 0x7F are all treated as printable here; Go's
tables additionally exclude a small set of non-graphic runes (such as
U+00AD), whose `\uxxxx` escapes are valid JSON anyway, so the theorems
below do not depend on that distinction. -/
def goPrint (c : Char) : Bool :=
  (32 ≤ c.toNat && c.toNat ≤ 126) || 128 ≤ c.toNat

/-- One rune of Go `strconv.AppendQuote` (the slow path of fastjson's
`escapeString`): the quote and the backslash are backslashed, printable
runes are copied verbatim, the Go single-letter escapes cover
\a \b \f \n \r \t \v, and every remaining character (the other control
characters and DEL) becomes a Go `\xhh` lowercase-hex escape - which is
not a JSON escape. -/
def goEscChar (c : Char) : List Char :=
  if c = '"' then ['\\', '"']
  else if c = '\\' then ['\\', '\\']
  else if goPrint c then [c]
  else if c = '\x07' then ['\\', 'a']
  else if c = '\x08' then ['\\', 'b']
  else if c = '\x0c' then ['\\', 'f']
  else if c = '\n' then ['\\', 'n']
  else if c = '\r' then ['\\', 'r']
  else if c = '\t' then ['\\', 't']
  else if c = '\x0b' then ['\\', 'v']
  else ['\\', 'x', Nat.digitChar (c.toNat / 16 % 16), Nat.digitChar (c.toNat % 16)]

/-- fastjson `escapeString` (the serializer's string escaping, between the
quotes): a string with no special characters is copied verbatim (fast
path); otherwise the whole string is requoted by `strconv.AppendQuote`
with Go escape syntax (slow path). -/
def escString (s : String) : String :=
  if hasSpecialChars s then
    String.mk (s.data.foldr (fun c acc => goEscChar c ++ acc) [])
  else s

/-- Decimal digits of a natural number, most significant first; `fuel`
bounds the recursion (any `fuel > n` yields the digits of `n`). -/
def printNatAux : Nat → Nat → List Char
  | 0, _ => []
  | fuel + 1, n =>
    if n < 10 then [Nat.digitChar n]
    else printNatAux fuel (n / 10) ++ [Nat.digitChar (n % 10)]

/-- Decimal rendering of a natural number. -/
def printNat (n : Nat) : String := String.mk (printNatAux (n + 1) n)

def printInt (n : Int) : String :=
  if n < 0 then "-" ++ printNat n.natAbs else printNat n.natAbs

mutual

/-- fastjson `Value.MarshalTo`: compact serialization, object fields in
stored order, strings escaped. -/
def marshal : Json → String
  | Json.null => "null"
  | Json.bool b => if b then "true" else "false"
  | Json.num n => printInt n
  | Json.str s => "\"" ++ escString s ++ "\""
  | Json.arr xs => "[" ++ marshalElems xs ++ "]"
  | Json.obj fields => "\x7b" ++ marshalFields fields ++ "\x7d"

def marshalElems : List Json → String
  | [] => ""
  | [x] => marshal x
  | x :: y :: rest => marshal x ++ "," ++ marshalElems (y :: rest)

def marshalFields : List (String × Json) → String
  | [] => ""
  | [(k, v)] => "\"" ++ escString k ++ "\":" ++ marshal v
  | (k, v) :: f :: rest =>
    "\"" ++ escString k ++ "\":" ++ marshal v ++ "," ++ marshalFields (f :: rest)

end

/-- The mutable dump context fields touched by the producer: the
`search_after` cursor (`Context.After`, zero value `""`) and the record
counter (`Context.Counter`, zero value `0`). -/
structure Ctx where
  after : String
  counter : Nat

def initCtx : Ctx := Ctx.mk "" 0

/-- The body of the `for _, v := range results` loop of
`parse_search_results`: read the sort cursor, update `ctx.After` when it
is non-empty, delete the `sort` field when present, bump the counter, and
marshal the remaining payload as the emitted record. -/
def processHit (ctx : Ctx) (v : Json) : Ctx × Json :=
  let sort := sortKey v
  let after := if sort ≠ "" then sort else ctx.after
  (Ctx.mk after (ctx.counter + 1), stripSort v)

def processHits : Ctx → List Json → Ctx × List Json
  | ctx, [] => (ctx, [])
  | ctx, v :: vs =>
    let p := processHit ctx v
    let q := processHits p.1 vs
    (q.1, p.2 :: q.2)

/-- `parse_search_results`: fatal (`log.Fatalf`) unless the top-level
`hits` field exists; then iterate over `hits.hits` (the empty list when
that path is missing or not an array), producing the updated context and
the records in hit order.  The source's early return on an empty array is
the same as iterating over no hits. -/
def parse_search_results (input : Json) (ctx : Ctx) :
    Except String (Ctx × List Json) :=
  if jexists input [hitsK] then
    Except.ok (processHits ctx (jsonArray (getPath input [hitsK, hitsK])))
  else
    Except.error ("JSON result looks incorrect")

/-- An HTTP response from the search service: status code and (parsed)
body. -/
structure Resp where
  status : Nat
  body : Json

/-- `http_get`: any status other than 200 OK is fatal (`log.Fatalf`);
otherwise the body is returned. -/
def http_get (r : Resp) : Except String Json :=
  if r.status ≠ 200 then Except.error ("Got invalid HTTP status code")
  else Except.ok r.body

/-- The fixed text of `query_template` before the rendered `.Size`. -/
def tmplA : String := "\x7b\n\t\"size\": "

/-- The fixed text of `query_template` between `.Size` and the optional
`search_after` block. -/
def tmplB : String :=
  ",\n\t\"query\": \x7b\"bool\": \x7b\"must\": \x7b\"match_all\": \x7b\x7d\x7d\x7d\x7d,"

/-- The `search_after` block of `query_template`, rendered only when
`.After` is non-empty (Go template truthiness of a string). -/
def tmplAfter (after : String) : String :=
  "\n\t\"search_after\": [\"" ++ after ++ "\"],"

/-- The fixed tail of `query_template` holding the sort clause. -/
def tmplC : String := "\n\t\"sort\": [\n\t  \x7b \"_id\": \"asc\" \x7d \n\t]\n\x7d"

/-- `query_search_database`'s request body: `query_template` executed
against the context (`{{.Size}}`, and the `search_after` block iff
`{{if .After}}` is truthy, i.e. the cursor is non-empty). -/
def renderQuery (size : Nat) (after : String) : String :=
  tmplA ++ printNat size ++ tmplB ++
    (if after ≠ "" then tmplAfter after else "") ++ tmplC

/-- The producer loop over an oracle list of responses the search service
will give, in order.  Each iteration renders the query for the current
cursor, performs the GET, parses the page, emits every record, and stops
when a page produced no records.  Returns the queries issued, the records
emitted to the channel (in emission order), and the outcome: the final
context on normal termination, or the fatal error.  An exhausted oracle
(never reached for the services of the theorems below) is an error. -/
def producer (size : Nat) : List Resp → Ctx → List String × List Json × Except String Ctx
  | [], _ => ([], [], Except.error ("no response"))
  | r :: rest, ctx =>
    let q := renderQuery size ctx.after
    match http_get r with
    | Except.error e => ([q], [], Except.error e)
    | Except.ok body =>
      match parse_search_results body ctx with
      | Except.error e => ([q], [], Except.error e)
      | Except.ok (ctx1, recs) =>
        if recs.isEmpty then ([q], recs, Except.ok ctx1)
        else
          let next := producer size rest ctx1
          (q :: next.1, recs ++ next.2.1, next.2.2)

/-- The well-behaved search service for an index holding `docs` in
ascending `_id` order: each request returns the next window of at most
`size` documents. -/
def chunks : Nat → List Json → List (List Json)
  | 0, _ => []
  | _ + 1, [] => []
  | s + 1, d :: ds => ((d :: ds).take (s + 1)) :: chunks (s + 1) (ds.drop s)
  termination_by _ docs => docs.length
  decreasing_by simp; omega

/-- A search response page: `{"hits": {"hits": [...]}}`. -/
def searchResponse (page : List Json) : Json :=
  Json.obj [(hitsK, Json.obj [(hitsK, Json.arr page)])]

def okPage (page : List Json) : Resp := Resp.mk 200 (searchResponse page)

/-- The response sequence of a well-behaved index: one page per window,
then the empty page that signals end-of-data. -/
def goodResponses (size : Nat) (docs : List Json) : List Resp :=
  (chunks size docs).map okPage ++ [okPage []]

/-- The byte content the consumer writes for a record sequence: each
record's marshalled bytes followed by a single `\n` (`out.Write(data);
out.Write(ln)`). -/
def outputContent : List Json → String
  | [] => ""
  | r :: rs => marshal r ++ "\n" ++ outputContent rs

/-- The filesystem visible to the consumer: an association of paths to
file contents; earlier entries shadow later ones. -/
def FS : Type := List (String × String)

def fsFind : FS → String → Option String
  | [], _ => none
  | (p, c) :: rest, path => if p = path then some c else fsFind rest path

def fsPut (fs : FS) (path content : String) : FS := (path, content) :: fs

/-- One export run, sequenced as `main` sequences it: the pre-flight
count aborts (`Nothing to dump!`) before the pipeline starts; the
consumer's `os.OpenFile(..., O_CREATE|O_EXCL, ...)` aborts when the path
already exists, before anything is written; otherwise the producer runs
against the service and the consumer writes every emitted record.
`count` is what the `_count` endpoint reported.  Returns the filesystem
afterwards, the search queries issued, and the reported record total or
the fatal error.  A fatal producer error aborts the process with no
guaranteed flush (§4.4), modelled as no write. -/
def mainRun (count : Nat) (size : Nat) (responses : List Resp) (fs : FS)
    (path : String) : FS × List String × Except String Nat :=
  if count = 0 then (fs, [], Except.error ("Nothing to dump!"))
  else
    match fsFind fs path with
    | some _ => (fs, [], Except.error ("open " ++ path ++ ": file exists"))
    | none =>
      let p := producer size responses initCtx
      match p.2.2 with
      | Except.error e => (fs, p.1, Except.error e)
      | Except.ok ctx =>
        (fsPut fs path (outputContent p.2.1), p.1, Except.ok ctx.counter)

/-- State of the bounded channel pipeline: records the producer has yet
to send, the channel buffer, whether the channel is closed, and the
records the consumer has written so far. -/
structure QState where
  pending : List Json
  buf : List Json
  closed : Bool
  out : List Json

/-- Scheduler action: run the producer side or the consumer side. -/
inductive Act where
  | prod : Act
  | cons : Act

/-- One scheduling step of the channel pipeline with capacity `cap`.  A
producer step sends its next record when the buffer has room (a send on a
full channel blocks: no state change) and closes the channel once all
records are sent; a consumer step receives the oldest buffered record and
writes it (a receive on an empty channel blocks). -/
def qstep (cap : Nat) (s : QState) : Act → QState
  | Act.prod =>
    match s.pending with
    | [] => QState.mk [] s.buf true s.out
    | r :: rest =>
      if s.buf.length < cap then QState.mk rest (s.buf ++ [r]) s.closed s.out
      else s
  | Act.cons =>
    match s.buf with
    | [] => s
    | r :: rest => QState.mk s.pending rest s.closed (s.out ++ [r])

def runSched (cap : Nat) : List Act → QState → QState
  | [], s => s
  | a :: rest, s => runSched cap rest (qstep cap s a)

/-- Whitespace recognized between JSON tokens. -/
def isWsChar (c : Char) : Bool :=
  c = ' ' || c = '\n' || c = '\t' || c = '\r'

def skipWs : List Char → List Char
  | [] => []
  | c :: rest => if isWsChar c then skipWs rest else c :: rest

/-- Inverse of the single-character JSON escapes (`\uXXXX` aside); any
other character after a backslash - such as Go's `\x` - is not JSON. -/
def unescChar (c : Char) : Option Char :=
  if c = '"' then some '"'
  else if c = '\\' then some '\\'
  else if c = '/' then some '/'
  else if c = 'n' then some '\n'
  else if c = 't' then some '\t'
  else if c = 'r' then some '\r'
  else if c = 'b' then some '\x08'
  else if c = 'f' then some '\x0c'
  else none

/-- Read a JSON string body (the opening quote already consumed):
returns the unescaped characters and the input after the closing quote.
`esc` records that the previous character was an unconsumed backslash. -/
def parseStrAux (esc : Bool) : List Char → Option (List Char × List Char)
  | [] => none
  | c :: rest =>
    if esc then
      match unescChar c with
      | none => none
      | some u =>
        match parseStrAux false rest with
        | some (cs, rem) => some (u :: cs, rem)
        | none => none
    else if c = '"' then some ([], rest)
    else if c = '\\' then parseStrAux true rest
    else
      match parseStrAux false rest with
      | some (cs, rem) => some (c :: cs, rem)
      | none => none

/-- Fold decimal digits onto an accumulator, stopping at the first
non-digit. -/
def parseDigitsAux (acc : Nat) : List Char → Nat × List Char
  | [] => (acc, [])
  | c :: rest =>
    match digitVal c with
    | some d => parseDigitsAux (acc * 10 + d) rest
    | none => (acc, c :: rest)

/-- Read a non-empty run of decimal digits. -/
def parseDigits : List Char → Option (Nat × List Char)
  | [] => none
  | c :: rest =>
    match digitVal c with
    | some d => some (parseDigitsAux d rest)
    | none => none

mutual

/-- Parse one JSON value; `fuel` bounds the nesting/step depth. -/
def parseVal : Nat → List Char → Option (Json × List Char)
  | 0, _ => none
  | fuel + 1, s =>
    match skipWs s with
    | [] => none
    | c :: rest =>
      match digitVal c with
      | some _ =>
        match parseDigits (c :: rest) with
        | some (n, rem) => some (Json.num (Int.ofNat n), rem)
        | none => none
      | none =>
        match c with
        | '-' =>
          match parseDigits rest with
          | some (n, rem) => some (Json.num (-(Int.ofNat n)), rem)
          | none => none
        | '"' =>
          match parseStrAux false rest with
          | some (cs, rem) => some (Json.str (String.mk cs), rem)
          | none => none
        | '[' =>
          match skipWs rest with
          | ']' :: rem => some (Json.arr [], rem)
          | s2 =>
            match parseElems fuel s2 with
            | some (vs, rem) => some (Json.arr vs, rem)
            | none => none
        | '\x7b' =>
          match skipWs rest with
          | '\x7d' :: rem => some (Json.obj [], rem)
          | s2 =>
            match parseFields fuel s2 with
            | some (fs, rem) => some (Json.obj fs, rem)
            | none => none
        | 't' =>
          match rest with
          | 'r' :: 'u' :: 'e' :: rem => some (Json.bool true, rem)
          | _ => none
        | 'f' =>
          match rest with
          | 'a' :: 'l' :: 's' :: 'e' :: rem => some (Json.bool false, rem)
          | _ => none
        | 'n' =>
          match rest with
          | 'u' :: 'l' :: 'l' :: rem => some (Json.null, rem)
          | _ => none
        | _ => none

/-- Parse the elements of a non-empty array (after the opening `[`). -/
def parseElems : Nat → List Char → Option (List Json × List Char)
  | 0, _ => none
  | fuel + 1, s =>
    match parseVal fuel s with
    | none => none
    | some (v, rem) =>
      match skipWs rem with
      | ',' :: rem2 =>
        match parseElems fuel rem2 with
        | some (vs, rem3) => some (v :: vs, rem3)
        | none => none
      | ']' :: rem2 => some ([v], rem2)
      | _ => none

/-- Parse the fields of a non-empty object (after the opening brace). -/
def parseFields : Nat → List Char → Option (List (String × Json) × List Char)
  | 0, _ => none
  | fuel + 1, s =>
    match skipWs s with
    | '"' :: rest =>
      match parseStrAux false rest with
      | none => none
      | some (k, rem) =>
        match skipWs rem with
        | ':' :: rem2 =>
          match parseVal fuel rem2 with
          | none => none
          | some (v, rem3) =>
            match skipWs rem3 with
            | ',' :: rem4 =>
              match parseFields fuel rem4 with
              | some (fs, rem5) => some ((String.mk k, v) :: fs, rem5)
              | none => none
            | '\x7d' :: rem4 => some ([(String.mk k, v)], rem4)
            | _ => none
        | _ => none
    | _ => none

end

/-- Parse a complete JSON document (nothing but whitespace may follow). -/
def parseJson (s : String) : Option Json :=
  match parseVal (s.length + 1) s.data with
  | some (v, rem) => if skipWs rem = [] then some v else none
  | none => none

/-- Modelled from the spec (§6), for comparison with the source's
string template: the pagination query document shape
`{"size": W, "query": {"bool": {"must": {"match_all": {}}}},
"search_after": ["c"] (omitted when no cursor),
"sort": [{"_id": "asc"}]}`. -/
def specQueryDoc (size : Nat) (cursor : Option String) : Json :=
  Json.obj ([("size", Json.num (Int.ofNat size)),
    ("query", Json.obj [("bool", Json.obj [("must",
      Json.obj [("match_all", Json.obj [])])])])]
    ++ (match cursor with
        | some c => [("search_after", Json.arr [Json.str c])]
        | none => [])
    ++ [("sort", Json.arr [Json.obj [("_id", Json.str "asc")]])])

/-- Number of top-level bindings of `key` in `v` (0 for non-objects). -/
def topCount (v : Json) (key : String) : Nat :=
  match v with
  | Json.obj fields => (fields.map Prod.fst).count key
  | _ => 0
def outPath : String := "out.json"

def oldContent : String := "old"

def idA : String := "a"

def idB : String := "b"

def idC : String := "c"

def idD : String := "d"

def idE : String := "e"

/-- A well-formed hit: its unique identifier and the matching sort
annotation. -/
def doc1 (id : String) : Json :=
  Json.obj [(idK, Json.str id), (sortK, Json.arr [Json.str id])]

def docsAB : List Json := [doc1 idA, doc1 idB]

def docsABCDE : List Json := [doc1 idA, doc1 idB, doc1 idC, doc1 idD, doc1 idE]
def weirdHits : Json := Json.obj [(hitsK, Json.obj [("total", Json.num 7)])]
def numSortHit : Json :=
  Json.obj [(idK, Json.str idD), (sortK, Json.arr [Json.num 42])]
/-- A character whose slow-path Go escape is also a JSON escape (or that
needs none): printable, or one of \b \t \n \f \r.  The remaining control
characters and DEL come out of `strconv.AppendQuote` as `\a`, `\v` or
`\xhh`, which JSON does not accept. -/
def slowSafeCh (c : Char) : Bool :=
  goPrint c || c = '\n' || c = '\t' || c = '\r' || c = '\x08' || c = '\x0c'

/-- A string the serializer turns into a JSON literal that parses back to
it: either the fast path applies (no special characters, copied
verbatim), or every character's Go escape is a JSON one. -/
def strOk (s : String) : Bool :=
  !hasSpecialChars s || s.data.all slowSafeCh

mutual

def jsonOkJ : Json → Bool
  | Json.null => true
  | Json.bool _ => true
  | Json.num _ => true
  | Json.str s => strOk s
  | Json.arr xs => jsonOkE xs
  | Json.obj fs => jsonOkF fs

def jsonOkE : List Json → Bool
  | [] => true
  | x :: xs => jsonOkJ x && jsonOkE xs

def jsonOkF : List (String × Json) → Bool
  | [] => true
  | f :: fs => strOk f.1 && jsonOkJ f.2 && jsonOkF fs

end

/-- A cursor holding a quote: interpolated raw into the query template it
yields a request body that is not valid JSON. -/
def badCur : String := "a\"b"

/-- The literal query value of `query_template`:
`{"bool": {"must": {"match_all": {}}}}`. -/
def qvalT : String := "\x7b\"bool\": \x7b\"must\": \x7b\"match_all\": \x7b\x7d\x7d\x7d\x7d"

/-- Its parse: the spec's `bool`/`must`/`match_all` query document. -/
def qInner : Json :=
  Json.obj [("bool", Json.obj [("must", Json.obj [("match_all", Json.obj [])])])]

/-- The literal sort value of `query_template`:
`[` newline tab `  { "_id": "asc" } ` newline tab `]`. -/
def svalT : String := "[\n\t  \x7b \"_id\": \"asc\" \x7d \n\t]"

/-- Its parse: the spec's sort clause `[{"_id": "asc"}]`. -/
def sInner : Json := Json.arr [Json.obj [("_id", Json.str "asc")]]

/-- The rendered template's character stream from just after the `sort`
key's opening quote to the end of the request body. -/
def sortKT : List Char :=
  's' :: 'o' :: 'r' :: 't' :: '"' :: ':' :: ' ' :: (svalT.data ++ ('\n' :: '\x7d' :: []))

/-- The `sort` member as it follows a comma: newline, tab, opening quote,
then `sortKT`. -/
def sortBlk : List Char := '\n' :: '\t' :: '"' :: sortKT

/-- The stream from just after the `search_after` key's opening quote,
with the cursor `c` interpolated raw. -/
def saKT (c : String) : List Char :=
  's' :: 'e' :: 'a' :: 'r' :: 'c' :: 'h' :: '_' :: 'a' :: 'f' :: 't' :: 'e' :: 'r' ::
    '"' :: ':' :: ' ' :: '[' :: '"' :: (c.data ++ ('"' :: ']' :: ',' :: sortBlk))

/-- The `search_after` member as it follows a comma. -/
def saBlk (c : String) : List Char := '\n' :: '\t' :: '"' :: saKT c

/-- The stream from just after the `query` key's opening quote;  `tail`
is what follows the member's comma. -/
def queryKT (tail : List Char) : List Char :=
  'q' :: 'u' :: 'e' :: 'r' :: 'y' :: '"' :: ':' :: ' ' :: (qvalT.data ++ (',' :: tail))

/-- The `query` member as it follows a comma. -/
def queryBlk (tail : List Char) : List Char := '\n' :: '\t' :: '"' :: queryKT tail

/-- The stream from just after the `size` key's opening quote: the
rendered window size, a comma, then `tail`. -/
def sizeKT (W : Nat) (tail : List Char) : List Char :=
  's' :: 'i' :: 'z' :: 'e' :: '"' :: ':' :: ' ' :: ((printNat W).data ++ (',' :: tail))

mutual

/-- Parser fuel sufficient for a value. -/
def fuelNeed : Json → Nat
  | Json.arr xs => 1 + fuelNeedE xs
  | Json.obj fs => 1 + fuelNeedF fs
  | _ => 1

def fuelNeedE : List Json → Nat
  | [] => 0
  | x :: xs => 1 + fuelNeed x + fuelNeedE xs

def fuelNeedF : List (String × Json) → Nat
  | [] => 0
  | f :: fs => 1 + fuelNeed f.2 + fuelNeedF fs

end

/-- The input does not continue with a digit (so a digit run ends here). -/
def noDigitHead : List Char → Prop
  | [] => True
  | c :: _ => c.isDigit = false
def countCh (s : String) (c : Char) : Nat := s.data.count c

/-- The rendered query carries a `search_after` clause: some cursor
value's clause text occurs in it. -/
def hasSA (s : String) : Prop :=
  ∃ c pre suf, s = pre ++ tmplAfter c ++ suf

/-- A character that may start a serialized value: not whitespace, and
not a closing delimiter. -/
def headOk (c : Char) : Bool :=
  !isWsChar c && !(c = ']') && !(c = '\x7d')

theorem processHit_fst (ctx : Ctx) (v : Json) :
    (processHit ctx v).1
      = Ctx.mk (if sortKey v ≠ "" then sortKey v else ctx.after) (ctx.counter + 1) := rfl

theorem processHit_snd (ctx : Ctx) (v : Json) : (processHit ctx v).2 = stripSort v := rfl

theorem processHits_append (a : List Json) :
    ∀ (ctx : Ctx) (b : List Json),
      processHits ctx (a ++ b)
        = ((processHits (processHits ctx a).1 b).1,
           (processHits ctx a).2 ++ (processHits (processHits ctx a).1 b).2) := by
  induction a with
  | nil => intro ctx b; simp [processHits]
  | cons v vs ih => intro ctx b; simp [processHits, ih]

theorem processHits_records (l : List Json) :
    ∀ ctx : Ctx, (processHits ctx l).2 = l.map stripSort := by
  induction l with
  | nil => intro ctx; simp [processHits]
  | cons v vs ih => intro ctx; simp [processHits, processHit_snd, ih]

theorem processHits_counter (l : List Json) :
    ∀ ctx : Ctx, (processHits ctx l).1.counter = ctx.counter + l.length := by
  induction l with
  | nil => intro ctx; simp [processHits]
  | cons v vs ih => intro ctx; simp [processHits, ih, processHit_fst]; omega

theorem processHits_after_ne (l : List Json) :
    ∀ ctx : Ctx, ctx.after ≠ "" → (processHits ctx l).1.after ≠ "" := by
  induction l with
  | nil => intro ctx h; simpa [processHits] using h
  | cons v vs ih =>
    intro ctx h
    simp only [processHits]
    apply ih
    rw [processHit_fst]
    by_cases hs : sortKey v = "" <;> simp [hs, h]

theorem chunks_cons (s : Nat) (d : Json) (ds : List Json) :
    chunks (s + 1) (d :: ds) = ((d :: ds).take (s + 1)) :: chunks (s + 1) (ds.drop s) := by
  simp [chunks]

theorem chunks_flatten (s : Nat) :
    ∀ docs : List Json, (chunks (s + 1) docs).flatten = docs
  | [] => by simp [chunks]
  | d :: ds => by
    rw [chunks_cons]
    simp only [List.flatten_cons, chunks_flatten s (ds.drop s)]
    simp [List.take_append_drop]
  termination_by docs => docs.length
  decreasing_by simp; omega

theorem chunks_length (s : Nat) :
    ∀ docs : List Json, (chunks (s + 1) docs).length = (docs.length + s) / (s + 1)
  | [] => by simp [chunks, Nat.div_eq_of_lt]
  | d :: ds => by
    rw [chunks_cons]
    simp only [List.length_cons, chunks_length s (ds.drop s), List.length_drop]
    have e2 : ds.length + 1 + s = ds.length + (s + 1) := by omega
    rw [e2, Nat.add_div_right _ (by omega)]
    rcases Nat.le_total s ds.length with h | h
    · have e1 : ds.length - s + s = ds.length := by omega
      rw [e1]
    · have e1 : ds.length - s + s = s := by omega
      rw [e1, Nat.div_eq_of_lt (by omega), Nat.div_eq_of_lt (by omega)]
  termination_by docs => docs.length
  decreasing_by simp; omega

theorem chunks_ne_nil (s : Nat) :
    ∀ docs : List Json, ∀ c ∈ chunks (s + 1) docs, c ≠ []
  | [] => by simp [chunks]
  | d :: ds => by
    rw [chunks_cons]
    intro c hc
    rcases List.mem_cons.mp hc with h | h
    · subst h; simp
    · exact chunks_ne_nil s (ds.drop s) c h
  termination_by docs => docs.length
  decreasing_by simp; omega

theorem parse_searchResponse (page : List Json) (ctx : Ctx) :
    parse_search_results (searchResponse page) ctx = Except.ok (processHits ctx page) := by
  simp [parse_search_results, searchResponse, jexists, getPath, getKey, lookupField,
    jsonArray]

/-- Whatever the service will answer, the first query of a producer run is
rendered from the current cursor. -/
theorem producer_head (size : Nat) (r : Resp) (rs : List Resp) (ctx : Ctx) :
    (producer size (r :: rs) ctx).1.head? = some (renderQuery size ctx.after) := by
  simp only [producer]
  cases http_get r with
  | error e => simp
  | ok body =>
    simp only
    cases parse_search_results body ctx with
    | error e => simp
    | ok p =>
      simp only
      by_cases h : p.2.isEmpty <;> simp [h]

/-- Running the producer against the well-behaved service for `docs`:
every window page is fetched and processed in order, the run stops at the
first empty page (whatever responses would follow), all of `docs` is
emitted stripped of its sort annotations, and the number of requests is
the number of windows plus one. -/
theorem producer_good (s : Nat) :
    ∀ (docs : List Json) (ctx : Ctx) (extra : List Resp),
      ∃ qs, producer (s + 1) ((chunks (s + 1) docs).map okPage ++ okPage [] :: extra) ctx
          = (qs, docs.map stripSort, Except.ok (processHits ctx docs).1)
        ∧ qs.length = (chunks (s + 1) docs).length + 1
  | [], ctx, extra => by
    refine ⟨[renderQuery (s + 1) ctx.after], ?_, by simp [chunks]⟩
    simp [chunks, producer, http_get, okPage, parse_searchResponse, processHits]
  | d :: ds, ctx, extra => by
    obtain ⟨qs, hrun, hlen⟩ :=
      producer_good s (ds.drop s) (processHits ctx ((d :: ds).take (s + 1))).1 extra
    refine ⟨renderQuery (s + 1) ctx.after :: qs, ?_, ?_⟩
    · rw [chunks_cons]
      simp only [List.map_cons, List.cons_append, producer]
      have hhttp : http_get (okPage ((d :: ds).take (s + 1))) =
          Except.ok (searchResponse ((d :: ds).take (s + 1))) := by
        simp [http_get, okPage]
      rw [hhttp]
      simp only [parse_searchResponse]
      have hne : ((processHits ctx ((d :: ds).take (s + 1))).2).isEmpty = false := by
        rw [processHits_records]
        simp [List.take_succ_cons]
      simp only [hne, Bool.false_eq_true, if_false, List.append_eq, hrun]
      have hsplit : d :: ds = (d :: ds).take (s + 1) ++ ds.drop s := by
        conv_lhs => rw [← List.take_append_drop (s + 1) (d :: ds)]
        simp
      simp only [Prod.mk.injEq, true_and, Except.ok.injEq]
      constructor
      · rw [processHits_records, ← List.map_append, ← hsplit]
        simp
      · conv_rhs => rw [hsplit, processHits_append]
    · rw [chunks_cons]
      simp [hlen]
  termination_by docs => docs.length
  decreasing_by simp; omega

/-- Whatever the schedule does, a pipeline step moves records around but
never loses, duplicates or reorders them: written output, then buffered
records, then unsent records always spell out the producer's emission
sequence. -/
theorem runSched_inv (cap : Nat) :
    ∀ (sched : List Act) (s : QState),
      (runSched cap sched s).out ++ (runSched cap sched s).buf
          ++ (runSched cap sched s).pending
        = s.out ++ s.buf ++ s.pending := by
  intro sched
  induction sched with
  | nil => intro s; simp [runSched]
  | cons a rest ih =>
    intro s
    simp only [runSched]
    rw [ih]
    cases a with
    | prod =>
      simp only [qstep]
      cases hp : s.pending with
      | nil => simp
      | cons r rs =>
        by_cases h : s.buf.length < cap <;> simp [h, hp]
    | cons =>
      simp only [qstep]
      cases hb : s.buf with
      | nil => simp [hb]
      | cons r rs => simp [hb]

theorem lookup_delFirst_ne (k key : String) (h : key ≠ k) :
    ∀ fields : List (String × Json),
      lookupField (delFirstField fields k) key = lookupField fields key := by
  intro fields
  induction fields with
  | nil => simp [delFirstField]
  | cons f rest ih =>
    obtain ⟨k1, v1⟩ := f
    simp only [delFirstField]
    by_cases h1 : k1 = k
    · subst h1
      simp [lookupField, Ne.symm h]
    · simp only [if_neg h1, lookupField]
      by_cases h2 : k1 = key <;> simp [h2, ih]

theorem lookup_of_count_zero (k : String) :
    ∀ fields : List (String × Json),
      (fields.map Prod.fst).count k = 0 → lookupField fields k = none := by
  intro fields
  induction fields with
  | nil => simp [lookupField]
  | cons f rest ih =>
    obtain ⟨k1, v1⟩ := f
    intro h
    simp only [List.map_cons, List.count_cons] at h
    simp only [lookupField]
    by_cases h1 : k1 = k
    · subst h1; simp at h
    · simp only [if_neg h1]
      exact ih (by omega)

theorem lookup_delFirst_self (k : String) :
    ∀ fields : List (String × Json),
      (fields.map Prod.fst).count k ≤ 1 →
      lookupField (delFirstField fields k) k = none := by
  intro fields
  induction fields with
  | nil => simp [delFirstField, lookupField]
  | cons f rest ih =>
    obtain ⟨k1, v1⟩ := f
    intro h
    simp only [List.map_cons, List.count_cons] at h
    simp only [delFirstField]
    by_cases h1 : k1 = k
    · subst h1
      simp only [if_pos rfl]
      simp at h
      exact lookup_of_count_zero _ rest (by omega)
    · simp only [if_neg h1, lookupField, if_neg h1]
      exact ih (by omega)

theorem decIndex_sortK : decIndex sortK = none := by rfl

theorem getPath_single (v : Json) (k : String) : getPath v [k] = getKey v k := by
  simp only [getPath]
  cases getKey v k <;> simp [getPath]

theorem jexists_sort_obj (fields : List (String × Json)) :
    jexists (Json.obj fields) [sortK] = (lookupField fields sortK).isSome := by
  rw [jexists, getPath_single]
  rfl

theorem stripSort_of_not_obj (v : Json) (h : ∀ fields, v ≠ Json.obj fields) :
    stripSort v = v := by
  cases v with
  | obj fields => exact absurd rfl (h fields)
  | arr xs =>
    simp only [stripSort, jexists, getPath_single]
    simp [getKey, decIndex_sortK]
  | null => rfl
  | bool b => rfl
  | num n => rfl
  | str s => rfl

/-- Removing the `sort` field never touches another field. -/
theorem getKey_stripSort_ne (v : Json) (key : String) (h : key ≠ sortK) :
    getKey (stripSort v) key = getKey v key := by
  cases v with
  | obj fields =>
    simp only [stripSort, jexists_sort_obj]
    cases hl : lookupField fields sortK with
    | none => simp
    | some w =>
      simp only [Option.isSome_some, if_true, delKey, getKey]
      exact lookup_delFirst_ne sortK key h fields
  | arr xs => rw [stripSort_of_not_obj _ (by intro f hf; cases hf)]
  | null => rfl
  | bool b => rfl
  | num n => rfl
  | str s => rfl

/-- After the strip, the hit has no top-level `sort` binding (assuming the
source hit did not carry a duplicated `sort` key). -/
theorem getPath_stripSort_sort (v : Json) (h : topCount v sortK ≤ 1) :
    getPath (stripSort v) [sortK] = none := by
  cases v with
  | obj fields =>
    simp only [topCount] at h
    simp only [stripSort, jexists_sort_obj]
    cases hl : lookupField fields sortK with
    | none => simpa [getPath_single, getKey] using hl
    | some w =>
      simp only [Option.isSome_some, if_true, delKey, getPath_single, getKey]
      exact lookup_delFirst_self sortK fields h
  | arr xs =>
    rw [stripSort_of_not_obj _ (by intro f hf; cases hf)]
    simp [getPath_single, getKey, decIndex_sortK]
  | null => rfl
  | bool b => rfl
  | num n => rfl
  | str s => rfl

/-- Like `producer_good`, but for an arbitrary service continuation after
the windows of `docs`: the producer first drains every (non-empty) window
page, then behaves as a fresh run against the continuation from the
accumulated context. -/
theorem producer_prefix (s : Nat) :
    ∀ (docs : List Json) (ctx : Ctx) (tail : List Resp),
      ∃ qs, producer (s + 1) ((chunks (s + 1) docs).map okPage ++ tail) ctx
          = (qs ++ (producer (s + 1) tail (processHits ctx docs).1).1,
             docs.map stripSort ++ (producer (s + 1) tail (processHits ctx docs).1).2.1,
             (producer (s + 1) tail (processHits ctx docs).1).2.2)
        ∧ qs.length = (chunks (s + 1) docs).length
  | [], ctx, tail => by
    refine ⟨[], ?_, by simp [chunks]⟩
    simp [chunks, processHits]
  | d :: ds, ctx, tail => by
    obtain ⟨qs, hrun, hlen⟩ :=
      producer_prefix s (ds.drop s) (processHits ctx ((d :: ds).take (s + 1))).1 tail
    refine ⟨renderQuery (s + 1) ctx.after :: qs, ?_, ?_⟩
    · rw [chunks_cons]
      simp only [List.map_cons, List.cons_append, producer]
      have hhttp : http_get (okPage ((d :: ds).take (s + 1))) =
          Except.ok (searchResponse ((d :: ds).take (s + 1))) := by
        simp [http_get, okPage]
      rw [hhttp]
      simp only [parse_searchResponse]
      have hne : ((processHits ctx ((d :: ds).take (s + 1))).2).isEmpty = false := by
        rw [processHits_records]
        simp [List.take_succ_cons]
      have hsplit : d :: ds = (d :: ds).take (s + 1) ++ ds.drop s := by
        conv_lhs => rw [← List.take_append_drop (s + 1) (d :: ds)]
        simp
      have hctx : (processHits (processHits ctx ((d :: ds).take (s + 1))).1 (ds.drop s)).1
          = (processHits ctx (d :: ds)).1 := by
        conv_rhs => rw [hsplit, processHits_append]
      simp only [hne, Bool.false_eq_true, if_false, List.append_eq, hrun, hctx]
      rw [processHits_records, ← List.append_assoc, ← List.map_append, ← hsplit]
      simp
    · rw [chunks_cons]
      simp [hlen]
  termination_by docs => docs.length
  decreasing_by simp; omega

theorem jsonArray_eq_nil (o : Option Json) (h : ∀ xs, o ≠ some (Json.arr xs)) :
    jsonArray o = [] := by
  cases o with
  | none => rfl
  | some v =>
    cases v with
    | arr xs => exact absurd rfl (h xs)
    | null => rfl
    | bool b => rfl
    | num n => rfl
    | str s => rfl
    | obj f => rfl

theorem producer_head_http_error (size : Nat) (r : Resp) (rest : List Resp) (ctx : Ctx)
    (e : String) (h : http_get r = Except.error e) :
    producer size (r :: rest) ctx
      = ([renderQuery size ctx.after], [], Except.error e) := by
  simp [producer, h]

theorem producer_head_parse_error (size : Nat) (r : Resp) (rest : List Resp) (ctx : Ctx)
    (body : Json) (e : String) (h1 : http_get r = Except.ok body)
    (h2 : parse_search_results body ctx = Except.error e) :
    producer size (r :: rest) ctx
      = ([renderQuery size ctx.after], [], Except.error e) := by
  simp [producer, h1, h2]

theorem producer_head_empty (size : Nat) (r : Resp) (rest : List Resp) (ctx ctx2 : Ctx)
    (body : Json) (h1 : http_get r = Except.ok body)
    (h2 : parse_search_results body ctx = Except.ok (ctx2, [])) :
    producer size (r :: rest) ctx
      = ([renderQuery size ctx.after], [], Except.ok ctx2) := by
  simp [producer, h1, h2]

/-- Runs that agree on the service's behaviour after the windows of
`docs` agree entirely: the good prefix is deterministic. -/
theorem producer_congr_tail (s : Nat) :
    ∀ (docs : List Json) (ctx : Ctx) (tail1 tail2 : List Resp),
      producer (s + 1) tail1 (processHits ctx docs).1
          = producer (s + 1) tail2 (processHits ctx docs).1 →
      producer (s + 1) ((chunks (s + 1) docs).map okPage ++ tail1) ctx
        = producer (s + 1) ((chunks (s + 1) docs).map okPage ++ tail2) ctx
  | [], ctx, tail1, tail2, h => by
    simpa [chunks, processHits] using h
  | d :: ds, ctx, tail1, tail2, h => by
    have hctx : (processHits (processHits ctx ((d :: ds).take (s + 1))).1 (ds.drop s)).1
        = (processHits ctx (d :: ds)).1 := by
      have hsplit : d :: ds = (d :: ds).take (s + 1) ++ ds.drop s := by
        conv_lhs => rw [← List.take_append_drop (s + 1) (d :: ds)]
        simp
      conv_rhs => rw [hsplit, processHits_append]
    have ih := producer_congr_tail s (ds.drop s)
      (processHits ctx ((d :: ds).take (s + 1))).1 tail1 tail2 (by rw [hctx]; exact h)
    rw [chunks_cons]
    simp only [List.map_cons, List.cons_append, producer]
    have hhttp : http_get (okPage ((d :: ds).take (s + 1))) =
        Except.ok (searchResponse ((d :: ds).take (s + 1))) := by
      simp [http_get, okPage]
    rw [hhttp]
    simp only [parse_searchResponse]
    have hne : ((processHits ctx ((d :: ds).take (s + 1))).2).isEmpty = false := by
      rw [processHits_records]
      simp [List.take_succ_cons]
    simp only [hne, Bool.false_eq_true, if_false, List.append_eq, ih]
  termination_by docs => docs.length
  decreasing_by simp; omega

theorem fsFind_fsPut (fs : FS) (path c : String) :
    fsFind (fsPut fs path c) path = some c := by
  simp [fsFind, fsPut]

theorem mainRun_zero (size : Nat) (rs : List Resp) (fs : FS) (path : String) :
    mainRun 0 size rs fs path = (fs, [], Except.error ("Nothing to dump!")) := by
  simp [mainRun]

theorem mainRun_exists_fatal (count size : Nat) (rs : List Resp) (fs : FS)
    (path c : String) (hc : count ≠ 0) (h : fsFind fs path = some c) :
    mainRun count size rs fs path
      = (fs, [], Except.error ("open " ++ path ++ ": file exists")) := by
  simp [mainRun, hc, h]

theorem mainRun_success (count s : Nat) (docs : List Json) (fs : FS) (path : String)
    (hc : count ≠ 0) (hfree : fsFind fs path = none) :
    (mainRun count (s + 1) (goodResponses (s + 1) docs) fs path).1
        = fsPut fs path (outputContent (docs.map stripSort))
    ∧ (mainRun count (s + 1) (goodResponses (s + 1) docs) fs path).2.2
        = Except.ok docs.length := by
  obtain ⟨qs, hrun, _⟩ := producer_good s docs initCtx []
  have hg : goodResponses (s + 1) docs
      = (chunks (s + 1) docs).map okPage ++ okPage [] :: [] := rfl
  have hcount : (processHits initCtx docs).1.counter = docs.length := by
    rw [processHits_counter]
    simp [initCtx]
  rw [mainRun, if_neg hc, hfree]
  simp only [hg, hrun, hcount]
  simp

/-- C1: against an index of `N = docs.length` documents served in windows
of `W = s + 1`, the producer issues `⌈N/W⌉` pages with results plus
exactly one final empty page — `(N + s) / (s + 1) + 1` requests in all,
whatever the service would have answered afterwards — emits exactly `N`
records to the work queue, ends the progress counter at `N`, and the
run is decided solely by the empty page, never by the pre-flight count:
`mainRun`s differing only in a non-zero reported count are identical. -/
theorem claim1_pagination_counts (s : Nat) (docs : List Json) (ctx : Ctx)
    (extra : List Resp) :
    (∃ qs, producer (s + 1) ((chunks (s + 1) docs).map okPage ++ okPage [] :: extra) ctx
        = (qs, docs.map stripSort, Except.ok (processHits ctx docs).1)
      ∧ qs.length = (docs.length + s) / (s + 1) + 1
      ∧ (docs.map stripSort).length = docs.length)
    ∧ (processHits initCtx docs).1.counter = docs.length
    ∧ (∀ count1 count2 rs fs path, count1 ≠ 0 → count2 ≠ 0 →
        mainRun count1 (s + 1) rs fs path = mainRun count2 (s + 1) rs fs path) := by
  refine ⟨?_, ?_, ?_⟩
  · obtain ⟨qs, hrun, hlen⟩ := producer_good s docs ctx extra
    exact ⟨qs, hrun, by rw [hlen, chunks_length], by simp⟩
  · rw [processHits_counter]
    simp [initCtx]
  · intro count1 count2 rs fs path h1 h2
    simp [mainRun, h1, h2]

theorem claim1_witness :
    (∃ qs, producer 2 ((chunks 2 docsABCDE).map okPage ++ okPage [] :: []) initCtx
        = (qs, docsABCDE.map stripSort, Except.ok (processHits initCtx docsABCDE).1)
      ∧ qs.length = (docsABCDE.length + 1) / 2 + 1
      ∧ (docsABCDE.map stripSort).length = docsABCDE.length)
    ∧ (processHits initCtx docsABCDE).1.counter = docsABCDE.length
    ∧ mainRun 3 2 [] [] outPath = mainRun 7 2 [] [] outPath :=
  ⟨(claim1_pagination_counts 1 docsABCDE initCtx []).1,
   (claim1_pagination_counts 1 docsABCDE initCtx []).2.1,
   (claim1_pagination_counts 1 docsABCDE initCtx []).2.2 3 7 [] [] outPath
     (by decide) (by decide)⟩

/-- C2: the producer's emission sequence is the index's documents in
iteration order (stripped of their sort annotations); for every channel
capacity and every interleaving of producer and consumer steps, a drained
pipeline has written exactly that sequence, in that order; and stripping
preserves every non-`sort` field, in particular the unique identifier. -/
theorem claim2_fifo_order (s cap : Nat) (docs : List Json) (sched : List Act) :
    (producer (s + 1) (goodResponses (s + 1) docs) initCtx).2.1 = docs.map stripSort
    ∧ ((runSched cap sched (QState.mk (docs.map stripSort) [] false [])).pending = [] →
       (runSched cap sched (QState.mk (docs.map stripSort) [] false [])).buf = [] →
       (runSched cap sched (QState.mk (docs.map stripSort) [] false [])).out
         = docs.map stripSort)
    ∧ (∀ v ∈ docs, ∀ key, key ≠ sortK → getKey (stripSort v) key = getKey v key) := by
  refine ⟨?_, ?_, ?_⟩
  · obtain ⟨qs, hrun, _⟩ := producer_good s docs initCtx []
    have hg : goodResponses (s + 1) docs
        = (chunks (s + 1) docs).map okPage ++ okPage [] :: [] := rfl
    rw [hg, hrun]
  · intro h1 h2
    have hinv := runSched_inv cap sched (QState.mk (docs.map stripSort) [] false [])
    simpa [h1, h2] using hinv
  · intro v _ key hk
    exact getKey_stripSort_ne v key hk

theorem claim2_witness :
    (producer 2 (goodResponses 2 docsAB) initCtx).2.1 = docsAB.map stripSort
    ∧ (runSched 1 [Act.prod, Act.cons, Act.prod, Act.cons, Act.prod]
        (QState.mk (docsAB.map stripSort) [] false [])).out = docsAB.map stripSort
    ∧ getKey (stripSort (doc1 idA)) idK = getKey (doc1 idA) idK :=
  ⟨(claim2_fifo_order 1 1 docsAB [Act.prod, Act.cons, Act.prod, Act.cons, Act.prod]).1,
   (claim2_fifo_order 1 1 docsAB
      [Act.prod, Act.cons, Act.prod, Act.cons, Act.prod]).2.1 (by rfl) (by rfl),
   (claim2_fifo_order 1 1 docsAB [Act.prod, Act.cons, Act.prod, Act.cons, Act.prod]).2.2
     (doc1 idA) (by simp [docsAB]) idK (by decide)⟩

/-- C5: a hit whose sort annotation carries a (non-empty) string sort key
replaces the cursor with it; a hit with no sort annotation at all leaves
the cursor untouched yet is still counted and emitted unchanged; every
hit of a page is counted and emitted; and a non-empty cursor is never
reset to empty. -/
theorem claim5_cursor_advance :
    (∀ (ctx : Ctx) (v : Json) (sv : String),
        getPath v [sortK, zeroK] = some (Json.str sv) → sv ≠ "" →
        (processHit ctx v).1.after = sv)
    ∧ (∀ (ctx : Ctx) (v : Json), getPath v [sortK] = none →
        (processHit ctx v).1.after = ctx.after
        ∧ (processHit ctx v).1.counter = ctx.counter + 1
        ∧ (processHit ctx v).2 = v)
    ∧ (∀ (ctx : Ctx) (hits : List Json),
        (processHits ctx hits).2.length = hits.length
        ∧ (processHits ctx hits).1.counter = ctx.counter + hits.length)
    ∧ (∀ (ctx : Ctx) (hits : List Json), ctx.after ≠ "" →
        (processHits ctx hits).1.after ≠ "") := by
  refine ⟨?_, ?_, ?_, ?_⟩
  · intro ctx v sv h hne
    have hs : sortKey v = sv := by simp [sortKey, h]
    rw [processHit_fst]
    simp [hs, hne]
  · intro ctx v h
    have hkey : getKey v sortK = none := by rw [← getPath_single]; exact h
    have hs : sortKey v = "" := by
      simp [sortKey, getPath, hkey]
    have hstrip : stripSort v = v := by
      simp [stripSort, jexists, getPath_single, hkey]
    exact ⟨by rw [processHit_fst]; simp [hs], rfl, by rw [processHit_snd, hstrip]⟩
  · intro ctx hits
    constructor
    · rw [processHits_records]; simp
    · exact processHits_counter hits ctx
  · intro ctx hits h
    exact processHits_after_ne hits ctx h

theorem claim5_witness :
    (7 : Nat) ≠ 0
    ∧ (processHit (Ctx.mk idA 3) (doc1 idB)).1.after = idB
    ∧ ((processHit (Ctx.mk idA 3) (Json.obj [(idK, Json.str idC)])).1.after = idA
       ∧ (processHit (Ctx.mk idA 3) (Json.obj [(idK, Json.str idC)])).1.counter = 4
       ∧ (processHit (Ctx.mk idA 3) (Json.obj [(idK, Json.str idC)])).2
           = Json.obj [(idK, Json.str idC)])
    ∧ (processHits (Ctx.mk idA 3) docsAB).1.after ≠ "" :=
  ⟨by decide,
   claim5_cursor_advance.1 (Ctx.mk idA 3) (doc1 idB) idB (by rfl) (by decide),
   claim5_cursor_advance.2.1 (Ctx.mk idA 3) (Json.obj [(idK, Json.str idC)]) (by rfl),
   claim5_cursor_advance.2.2.2 (Ctx.mk idA 3) docsAB (by decide)⟩

/-- C6: the sink writer opens the output with `O_CREATE|O_EXCL`: a run
against a path that already holds a file fails with a resource error
before writing anything and leaves the filesystem untouched; hence a
first (successful) export followed by a second run against the same path
fails the second run immediately and leaves the first run's output
byte-for-byte unmodified. -/
theorem claim6_exclusive_create (count count2 size2 s : Nat) (docs : List Json)
    (fs : FS) (path : String) (resp2 : List Resp)
    (hc : count ≠ 0) (hc2 : count2 ≠ 0) (hfree : fsFind fs path = none) :
    (∀ (fs2 : FS) (c : String), fsFind fs2 path = some c →
        mainRun count2 size2 resp2 fs2 path
          = (fs2, [], Except.error ("open " ++ path ++ ": file exists")))
    ∧ (mainRun count (s + 1) (goodResponses (s + 1) docs) fs path).2.2
        = Except.ok docs.length
    ∧ fsFind (mainRun count (s + 1) (goodResponses (s + 1) docs) fs path).1 path
        = some (outputContent (docs.map stripSort))
    ∧ mainRun count2 size2 resp2
          (mainRun count (s + 1) (goodResponses (s + 1) docs) fs path).1 path
        = ((mainRun count (s + 1) (goodResponses (s + 1) docs) fs path).1, [],
           Except.error ("open " ++ path ++ ": file exists")) := by
  obtain ⟨hfs, hres⟩ := mainRun_success count s docs fs path hc hfree
  have hfind : fsFind (mainRun count (s + 1) (goodResponses (s + 1) docs) fs path).1 path
      = some (outputContent (docs.map stripSort)) := by
    rw [hfs]
    exact fsFind_fsPut fs path _
  refine ⟨?_, hres, hfind, ?_⟩
  · intro fs2 c h
    exact mainRun_exists_fatal count2 size2 resp2 fs2 path c hc2 h
  · exact mainRun_exists_fatal count2 size2 resp2 _ path _ hc2 hfind

theorem claim6_witness :
    mainRun 5 2 [] [(outPath, oldContent)] outPath
      = ([(outPath, oldContent)], [], Except.error ("open " ++ outPath ++ ": file exists"))
    ∧ (mainRun 5 2 (goodResponses 2 docsAB) [] outPath).2.2 = Except.ok docsAB.length
    ∧ fsFind (mainRun 5 2 (goodResponses 2 docsAB) [] outPath).1 outPath
        = some (outputContent (docsAB.map stripSort))
    ∧ mainRun 5 2 [] (mainRun 5 2 (goodResponses 2 docsAB) [] outPath).1 outPath
        = ((mainRun 5 2 (goodResponses 2 docsAB) [] outPath).1, [],
           Except.error ("open " ++ outPath ++ ": file exists")) :=
  ⟨(claim6_exclusive_create 5 5 2 1 docsAB [] outPath [] (by decide) (by decide)
      (by rfl)).1 [(outPath, oldContent)] oldContent (by rfl),
   (claim6_exclusive_create 5 5 2 1 docsAB [] outPath [] (by decide) (by decide)
      (by rfl)).2.1,
   (claim6_exclusive_create 5 5 2 1 docsAB [] outPath [] (by decide) (by decide)
      (by rfl)).2.2.1,
   (claim6_exclusive_create 5 5 2 1 docsAB [] outPath [] (by decide) (by decide)
      (by rfl)).2.2.2⟩

/-- C7: a non-200 search response is fatal in `http_get`; a body without
a top-level `hits` field is fatal in `parse_search_results`; and a
producer run that meets such a response after any number of good pages
aborts with an error right there — one request past the good pages — with
no retry: the run's outcome ignores every response that would have
followed. -/
theorem claim7_fatal_response (s : Nat) (docs : List Json) (ctx : Ctx) (bad : Resp)
    (rest : List Resp)
    (hbad : bad.status ≠ 200 ∨ jexists bad.body [hitsK] = false) :
    (∀ r : Resp, r.status ≠ 200 →
        http_get r = Except.error ("Got invalid HTTP status code"))
    ∧ (∀ (body : Json) (c : Ctx), jexists body [hitsK] = false →
        parse_search_results body c = Except.error ("JSON result looks incorrect"))
    ∧ (∃ qs e, producer (s + 1) ((chunks (s + 1) docs).map okPage ++ bad :: rest) ctx
          = (qs, docs.map stripSort, Except.error e)
        ∧ qs.length = (chunks (s + 1) docs).length + 1
        ∧ (∀ rest2, producer (s + 1) ((chunks (s + 1) docs).map okPage ++ bad :: rest2) ctx
            = producer (s + 1) ((chunks (s + 1) docs).map okPage ++ bad :: rest) ctx)) := by
  have hhttp : ∀ r : Resp, r.status ≠ 200 →
      http_get r = Except.error ("Got invalid HTTP status code") := by
    intro r h
    simp [http_get, h]
  have hparse : ∀ (body : Json) (c : Ctx), jexists body [hitsK] = false →
      parse_search_results body c = Except.error ("JSON result looks incorrect") := by
    intro body c h
    simp [parse_search_results, h]
  refine ⟨hhttp, hparse, ?_⟩
  have hstop : ∀ rs : List Resp, producer (s + 1) (bad :: rs) (processHits ctx docs).1
      = ([renderQuery (s + 1) (processHits ctx docs).1.after], [],
         Except.error (if bad.status = 200 then "JSON result looks incorrect"
           else "Got invalid HTTP status code")) := by
    intro rs
    by_cases hst : bad.status = 200
    · have hj : jexists bad.body [hitsK] = false := by
        rcases hbad with h | h
        · exact absurd hst h
        · exact h
      rw [if_pos hst]
      exact producer_head_parse_error (s + 1) bad rs _ bad.body _
        (by simp [http_get, hst]) (hparse bad.body _ hj)
    · rw [if_neg hst]
      exact producer_head_http_error (s + 1) bad rs _ _ (hhttp bad hst)
  obtain ⟨qs, hrun, hlen⟩ := producer_prefix s docs ctx (bad :: rest)
  refine ⟨qs ++ [renderQuery (s + 1) (processHits ctx docs).1.after],
    (if bad.status = 200 then "JSON result looks incorrect"
      else "Got invalid HTTP status code"), ?_, ?_, ?_⟩
  · rw [hrun, hstop rest]
    simp
  · simp [hlen]
  · intro rest2
    apply producer_congr_tail
    rw [hstop rest, hstop rest2]

theorem claim7_witness :
    (http_get (Resp.mk 500 Json.null) = Except.error ("Got invalid HTTP status code"))
    ∧ (parse_search_results (Json.obj []) initCtx
        = Except.error ("JSON result looks incorrect"))
    ∧ (∃ qs e, producer 2 ((chunks 2 docsAB).map okPage ++ Resp.mk 500 Json.null :: []) initCtx
          = (qs, docsAB.map stripSort, Except.error e)
        ∧ qs.length = (chunks 2 docsAB).length + 1
        ∧ (∀ rest2, producer 2 ((chunks 2 docsAB).map okPage ++ Resp.mk 500 Json.null :: rest2) initCtx
            = producer 2 ((chunks 2 docsAB).map okPage ++ Resp.mk 500 Json.null :: []) initCtx)) :=
  ⟨(claim7_fatal_response 1 docsAB initCtx (Resp.mk 500 Json.null) []
      (Or.inl (by decide))).1 (Resp.mk 500 Json.null) (by decide),
   (claim7_fatal_response 1 docsAB initCtx (Resp.mk 500 Json.null) []
      (Or.inl (by decide))).2.1 (Json.obj []) initCtx (by rfl),
   (claim7_fatal_response 1 docsAB initCtx (Resp.mk 500 Json.null) []
      (Or.inl (by decide))).2.2⟩

/-- C8: a pre-flight count of zero aborts the run before anything else
happens: no search query is issued and the filesystem — in particular the
output path — is exactly as before. -/
theorem claim8_zero_count_aborts (size : Nat) (rs : List Resp) (fs : FS) (path : String) :
    mainRun 0 size rs fs path = (fs, [], Except.error ("Nothing to dump!")) :=
  mainRun_zero size rs fs path

/-- C9: a 200 response whose body has a top-level `hits` field but no
nested `hits` array (absent, or present but not an array) parses to an
empty page, so a producer run meeting it after the good pages stops
normally — end of data, not a protocol error. -/
theorem claim9_missing_nested_hits (s : Nat) (docs : List Json) (ctx : Ctx)
    (body : Json) (rest : List Resp)
    (hh : jexists body [hitsK] = true)
    (hw : ∀ xs, getPath body [hitsK, hitsK] ≠ some (Json.arr xs)) :
    parse_search_results body ctx = Except.ok (ctx, [])
    ∧ ∃ qs, producer (s + 1) ((chunks (s + 1) docs).map okPage ++ Resp.mk 200 body :: rest) ctx
        = (qs, docs.map stripSort, Except.ok (processHits ctx docs).1)
      ∧ qs.length = (chunks (s + 1) docs).length + 1 := by
  have hparse : ∀ c : Ctx, parse_search_results body c = Except.ok (c, []) := by
    intro c
    rw [parse_search_results, if_pos hh, jsonArray_eq_nil _ hw]
    rfl
  refine ⟨hparse ctx, ?_⟩
  obtain ⟨qs, hrun, hlen⟩ := producer_prefix s docs ctx (Resp.mk 200 body :: rest)
  have hstep := producer_head_empty (s + 1) (Resp.mk 200 body) rest
    (processHits ctx docs).1 (processHits ctx docs).1 body (by simp [http_get]) (hparse _)
  refine ⟨qs ++ [renderQuery (s + 1) (processHits ctx docs).1.after], ?_, by simp [hlen]⟩
  rw [hrun, hstep]
  simp

theorem claim9_witness :
    parse_search_results weirdHits initCtx = Except.ok (initCtx, [])
    ∧ ∃ qs, producer 2 ((chunks 2 docsAB).map okPage ++ Resp.mk 200 weirdHits :: []) initCtx
        = (qs, docsAB.map stripSort, Except.ok (processHits initCtx docsAB).1)
      ∧ qs.length = (chunks 2 docsAB).length + 1 :=
  claim9_missing_nested_hits 1 docsAB initCtx weirdHits [] (by rfl)
    (by intro xs h; simp [weirdHits, getPath, getKey, lookupField, hitsK] at h)

/-- C10: a hit whose sort annotation is present but unusable — its first
element is not a JSON string, or is the empty string — leaves the cursor
exactly as an absent annotation would, while the hit is still counted,
still emitted, and still has its `sort` field stripped from the emitted
payload. -/
theorem claim10_malformed_sort (ctx : Ctx) (v : Json)
    (h1 : jexists v [sortK] = true) (h2 : sortKey v = "")
    (h3 : topCount v sortK ≤ 1) :
    (processHit ctx v).1.after = ctx.after
    ∧ (processHit ctx v).1.counter = ctx.counter + 1
    ∧ (processHit ctx v).2 = delKey v sortK
    ∧ getPath (processHit ctx v).2 [sortK] = none := by
  have hstrip : stripSort v = delKey v sortK := by
    rw [stripSort, if_pos h1]
  refine ⟨?_, rfl, ?_, ?_⟩
  · rw [processHit_fst]
    simp [h2]
  · rw [processHit_snd, hstrip]
  · rw [processHit_snd]
    exact getPath_stripSort_sort v h3

theorem claim10_witness :
    (processHit (Ctx.mk idA 3) numSortHit).1.after = idA
    ∧ (processHit (Ctx.mk idA 3) numSortHit).1.counter = 4
    ∧ (processHit (Ctx.mk idA 3) numSortHit).2 = delKey numSortHit sortK
    ∧ getPath (processHit (Ctx.mk idA 3) numSortHit).2 [sortK] = none :=
  claim10_malformed_sort (Ctx.mk idA 3) numSortHit (by rfl) (by rfl) (by decide)

theorem digitVal_eq (c : Char) (h : c.isDigit = true) :
    digitVal c = some (c.toNat - 48) := by
  simp [digitVal, h]

theorem digitVal_eq_none (c : Char) (h : c.isDigit = false) : digitVal c = none := by
  simp [digitVal, h]

theorem digitChar_sub (m : Nat) (h : m < 10) : (Nat.digitChar m).toNat - 48 = m := by
  interval_cases m <;> rfl

theorem digitChar_isDigit (m : Nat) (h : m < 10) : (Nat.digitChar m).isDigit = true := by
  interval_cases m <;> rfl

theorem digit_not_ws (c : Char) (h : c.isDigit = true) : isWsChar c = false := by
  by_contra hw
  have hw2 : isWsChar c = true := by
    revert hw
    cases isWsChar c <;> simp
  simp only [isWsChar, Bool.or_eq_true, decide_eq_true_eq] at hw2
  rcases hw2 with ((h1 | h1) | h1) | h1 <;>
    · subst h1
      exact absurd h (by decide)

theorem skipWs_not (c : Char) (l : List Char) (h : isWsChar c = false) :
    skipWs (c :: l) = c :: l := by
  simp [skipWs, h]

theorem printNatAux_all_digits :
    ∀ (n fuel : Nat), n < fuel → ∀ c ∈ printNatAux fuel n, c.isDigit = true := by
  intro n
  induction n using Nat.strong_induction_on with
  | _ n ih =>
    intro fuel h c hc
    match fuel with
    | f + 1 =>
      by_cases h10 : n < 10
      · simp only [printNatAux, if_pos h10, List.mem_singleton] at hc
        subst hc
        exact digitChar_isDigit n h10
      · simp only [printNatAux, if_neg h10, List.mem_append, List.mem_singleton] at hc
        rcases hc with hc | hc
        · exact ih (n / 10) (by omega) f (by omega) c hc
        · subst hc
          exact digitChar_isDigit _ (by omega)

theorem printNatAux_ne_nil (n fuel : Nat) (h : n < fuel) : printNatAux fuel n ≠ [] := by
  match fuel with
  | f + 1 =>
    by_cases h10 : n < 10 <;> simp [printNatAux, h10]

theorem printNatAux_foldl :
    ∀ (n fuel : Nat), n < fuel →
      List.foldl (fun a c => a * 10 + (c.toNat - 48)) 0 (printNatAux fuel n) = n := by
  intro n
  induction n using Nat.strong_induction_on with
  | _ n ih =>
    intro fuel h
    match fuel with
    | f + 1 =>
      by_cases h10 : n < 10
      · simp only [printNatAux, if_pos h10, List.foldl_cons, List.foldl_nil]
        rw [digitChar_sub n h10]
        omega
      · simp only [printNatAux, if_neg h10, List.foldl_append, List.foldl_cons,
          List.foldl_nil]
        rw [ih (n / 10) (by omega) f (by omega), digitChar_sub _ (by omega)]
        omega

theorem parseDigitsAux_stop (acc : Nat) (rest : List Char) (h : noDigitHead rest) :
    parseDigitsAux acc rest = (acc, rest) := by
  cases rest with
  | nil => rfl
  | cons c l =>
    simp only [noDigitHead] at h
    simp [parseDigitsAux, digitVal_eq_none c h]

theorem parseDigitsAux_run :
    ∀ (ds : List Char) (acc : Nat) (rest : List Char),
      (∀ c ∈ ds, c.isDigit = true) → noDigitHead rest →
      parseDigitsAux acc (ds ++ rest)
        = (List.foldl (fun a c => a * 10 + (c.toNat - 48)) acc ds, rest) := by
  intro ds
  induction ds with
  | nil => intro acc rest _ h; simpa using parseDigitsAux_stop acc rest h
  | cons c cs ih =>
    intro acc rest hd h
    have hc : c.isDigit = true := hd c (by simp)
    simp only [List.cons_append, parseDigitsAux, digitVal_eq c hc, List.foldl_cons]
    exact ih _ rest (fun x hx => hd x (by simp [hx])) h

theorem parseDigits_printNat (n : Nat) (rest : List Char) (h : noDigitHead rest) :
    parseDigits ((printNat n).data ++ rest) = some (n, rest) := by
  have hdata : (printNat n).data = printNatAux (n + 1) n := rfl
  cases hd : printNatAux (n + 1) n with
  | nil => exact absurd hd (printNatAux_ne_nil n (n + 1) (by omega))
  | cons c cs =>
    have hall := printNatAux_all_digits n (n + 1) (by omega)
    rw [hd] at hall
    have hc : c.isDigit = true := hall c (by simp)
    rw [hdata, hd]
    simp only [List.cons_append, parseDigits, digitVal_eq c hc]
    rw [parseDigitsAux_run cs _ rest (fun x hx => hall x (by simp [hx])) h]
    have hfold := printNatAux_foldl n (n + 1) (by omega)
    rw [hd] at hfold
    simp only [List.foldl_cons] at hfold
    have : (0 : Nat) * 10 + (c.toNat - 48) = c.toNat - 48 := by omega
    rw [this] at hfold
    rw [hfold]

theorem strData_append (a b : String) : (a ++ b).data = a.data ++ b.data := rfl

theorem parseStrAux_quote (l : List Char) : parseStrAux false ('"' :: l) = some ([], l) := rfl

theorem parseStrAux_esc_quote (l : List Char) :
    parseStrAux false ('\\' :: '"' :: l)
      = match parseStrAux false l with
        | some (cs, rem) => some ('"' :: cs, rem)
        | none => none := rfl

theorem parseStrAux_esc_back (l : List Char) :
    parseStrAux false ('\\' :: '\\' :: l)
      = match parseStrAux false l with
        | some (cs, rem) => some ('\\' :: cs, rem)
        | none => none := rfl

theorem parseStrAux_esc_nl (l : List Char) :
    parseStrAux false ('\\' :: 'n' :: l)
      = match parseStrAux false l with
        | some (cs, rem) => some ('\n' :: cs, rem)
        | none => none := rfl

theorem parseStrAux_esc_tab (l : List Char) :
    parseStrAux false ('\\' :: 't' :: l)
      = match parseStrAux false l with
        | some (cs, rem) => some ('\t' :: cs, rem)
        | none => none := rfl

theorem parseStrAux_esc_cr (l : List Char) :
    parseStrAux false ('\\' :: 'r' :: l)
      = match parseStrAux false l with
        | some (cs, rem) => some ('\r' :: cs, rem)
        | none => none := rfl

theorem parseStrAux_copy (c : Char) (l : List Char) (h1 : ¬ c = '"') (h2 : ¬ c = '\\') :
    parseStrAux false (c :: l)
      = match parseStrAux false l with
        | some p => some (c :: p.1, p.2)
        | none => none := by
  simp only [parseStrAux, Bool.false_eq_true, if_false, if_neg h1, if_neg h2]
  cases parseStrAux false l with
  | none => rfl
  | some p => rfl

theorem parseStrAux_esc_bsp (l : List Char) :
    parseStrAux false ('\\' :: 'b' :: l)
      = match parseStrAux false l with
        | some (cs, rem) => some ('\x08' :: cs, rem)
        | none => none := rfl

theorem parseStrAux_esc_ffd (l : List Char) :
    parseStrAux false ('\\' :: 'f' :: l)
      = match parseStrAux false l with
        | some (cs, rem) => some ('\x0c' :: cs, rem)
        | none => none := rfl

/-- A run of characters free of the quote and the backslash is read back
verbatim (the fast path's output, or raw interpolated template text). -/
theorem parseStr_plain :
    ∀ (cs rest : List Char), (∀ c ∈ cs, ¬ c = '"' ∧ ¬ c = '\\') →
      parseStrAux false (cs ++ '"' :: rest) = some (cs, rest) := by
  intro cs
  induction cs with
  | nil => intro rest _; exact parseStrAux_quote rest
  | cons c cs ih =>
    intro rest hp
    have hc := hp c (by simp)
    have hrec := ih rest (fun x hx => hp x (by simp [hx]))
    rw [List.cons_append, parseStrAux_copy c _ hc.1 hc.2, hrec]

/-- The slow path's output parses back to the source characters when every
character's Go escape is a JSON one. -/
theorem parseStr_goesc :
    ∀ (cs rest : List Char), (∀ c ∈ cs, slowSafeCh c = true) →
      parseStrAux false ((cs.foldr (fun c acc => goEscChar c ++ acc) []) ++ '"' :: rest)
        = some (cs, rest) := by
  intro cs
  induction cs with
  | nil => intro rest _; exact parseStrAux_quote rest
  | cons c cs ih =>
    intro rest hp
    have hc : slowSafeCh c = true := hp c (by simp)
    have hrec := ih rest (fun x hx => hp x (by simp [hx]))
    simp only [List.foldr_cons, List.append_assoc]
    by_cases h1 : c = '"'
    · subst h1
      simp only [show goEscChar '"' = ['\\', '"'] from rfl, List.cons_append,
        List.nil_append]
      rw [parseStrAux_esc_quote, hrec]
    · by_cases h2 : c = '\\'
      · subst h2
        simp only [show goEscChar '\\' = ['\\', '\\'] from rfl, List.cons_append,
          List.nil_append]
        rw [parseStrAux_esc_back, hrec]
      · by_cases h3 : goPrint c = true
        · have hesc : goEscChar c = [c] := by
            simp only [goEscChar, if_neg h1, if_neg h2, if_pos h3]
          rw [hesc]
          simp only [List.cons_append, List.nil_append]
          rw [parseStrAux_copy c _ h1 h2, hrec]
        · have hcases : c = '\n' ∨ c = '\t' ∨ c = '\r' ∨ c = '\x08' ∨ c = '\x0c' := by
            simp only [slowSafeCh, Bool.or_eq_true, decide_eq_true_eq] at hc
            rcases hc with ((((h | h) | h) | h) | h) | h
            · exact absurd h h3
            · exact Or.inl h
            · exact Or.inr (Or.inl h)
            · exact Or.inr (Or.inr (Or.inl h))
            · exact Or.inr (Or.inr (Or.inr (Or.inl h)))
            · exact Or.inr (Or.inr (Or.inr (Or.inr h)))
          rcases hcases with h | h | h | h | h
          · subst h
            simp only [show goEscChar '\n' = ['\\', 'n'] from rfl, List.cons_append,
              List.nil_append]
            rw [parseStrAux_esc_nl, hrec]
          · subst h
            simp only [show goEscChar '\t' = ['\\', 't'] from rfl, List.cons_append,
              List.nil_append]
            rw [parseStrAux_esc_tab, hrec]
          · subst h
            simp only [show goEscChar '\r' = ['\\', 'r'] from rfl, List.cons_append,
              List.nil_append]
            rw [parseStrAux_esc_cr, hrec]
          · subst h
            simp only [show goEscChar '\x08' = ['\\', 'b'] from rfl, List.cons_append,
              List.nil_append]
            rw [parseStrAux_esc_bsp, hrec]
          · subst h
            simp only [show goEscChar '\x0c' = ['\\', 'f'] from rfl, List.cons_append,
              List.nil_append]
            rw [parseStrAux_esc_ffd, hrec]

/-- `escapeString`'s output between the quotes parses back to the source
string, on either path, for a `strOk` string. -/
theorem escString_parse (s : String) (hs : strOk s = true) (rest : List Char) :
    parseStrAux false ((escString s).data ++ '"' :: rest) = some (s.data, rest) := by
  by_cases hsp : hasSpecialChars s = true
  · have hall : ∀ c ∈ s.data, slowSafeCh c = true := by
      simp only [strOk, hsp, Bool.not_true, Bool.false_or, List.all_eq_true] at hs
      exact hs
    have hd : (escString s).data
        = s.data.foldr (fun c acc => goEscChar c ++ acc) [] := by
      simp only [escString, if_pos hsp]
    rw [hd]
    exact parseStr_goesc s.data rest hall
  · have hplain : ∀ c ∈ s.data, ¬ c = '"' ∧ ¬ c = '\\' := by
      intro c hcm
      constructor
      · intro h
        apply hsp
        simp only [hasSpecialChars, List.any_eq_true]
        exact ⟨c, hcm, by simp [h]⟩
      · intro h
        apply hsp
        simp only [hasSpecialChars, List.any_eq_true]
        exact ⟨c, hcm, by simp [h]⟩
    have hd : (escString s).data = s.data := by
      simp only [escString, if_neg hsp]
    rw [hd]
    exact parseStr_plain s.data rest hplain

theorem parseVal_null (f : Nat) (l : List Char) :
    parseVal (f + 1) ('n' :: 'u' :: 'l' :: 'l' :: l) = some (Json.null, l) := rfl

theorem parseVal_true (f : Nat) (l : List Char) :
    parseVal (f + 1) ('t' :: 'r' :: 'u' :: 'e' :: l) = some (Json.bool true, l) := rfl

theorem parseVal_false (f : Nat) (l : List Char) :
    parseVal (f + 1) ('f' :: 'a' :: 'l' :: 's' :: 'e' :: l)
      = some (Json.bool false, l) := rfl

theorem parseVal_str_step (f : Nat) (l : List Char) :
    parseVal (f + 1) ('"' :: l)
      = match parseStrAux false l with
        | some (cs, rem) => some (Json.str (String.mk cs), rem)
        | none => none := rfl

theorem parseVal_neg_step (f : Nat) (l : List Char) :
    parseVal (f + 1) ('-' :: l)
      = match parseDigits l with
        | some (n, rem) => some (Json.num (-(Int.ofNat n)), rem)
        | none => none := rfl

theorem parseVal_arr_nil (f : Nat) (l : List Char) :
    parseVal (f + 1) ('[' :: ']' :: l) = some (Json.arr [], l) := rfl

theorem parseVal_obj_nil (f : Nat) (l : List Char) :
    parseVal (f + 1) ('\x7b' :: '\x7d' :: l) = some (Json.obj [], l) := rfl

theorem parseVal_digit_step (f : Nat) (c : Char) (l : List Char) (hd : c.isDigit = true) :
    parseVal (f + 1) (c :: l)
      = match parseDigits (c :: l) with
        | some (n, rem) => some (Json.num (Int.ofNat n), rem)
        | none => none := by
  simp only [parseVal, skipWs_not c l (digit_not_ws c hd), digitVal_eq c hd]

theorem parseVal_arr_step (f : Nat) (c : Char) (l : List Char)
    (hnw : isWsChar c = false) (hne : ¬ c = ']') :
    parseVal (f + 1) ('[' :: c :: l)
      = match parseElems f (c :: l) with
        | some (vs, rem) => some (Json.arr vs, rem)
        | none => none := by
  have h0 : parseVal (f + 1) ('[' :: c :: l)
      = match skipWs (c :: l) with
        | ']' :: rem => some (Json.arr [], rem)
        | s2 =>
          match parseElems f s2 with
          | some (vs, rem) => some (Json.arr vs, rem)
          | none => none := rfl
  rw [h0, skipWs_not c l hnw]
  split
  · next rem heq =>
      injection heq with h1 h2
      exact absurd h1 hne
  · rfl

theorem parseVal_obj_step (f : Nat) (c : Char) (l : List Char)
    (hnw : isWsChar c = false) (hne : ¬ c = '\x7d') :
    parseVal (f + 1) ('\x7b' :: c :: l)
      = match parseFields f (c :: l) with
        | some (fs, rem) => some (Json.obj fs, rem)
        | none => none := by
  have h0 : parseVal (f + 1) ('\x7b' :: c :: l)
      = match skipWs (c :: l) with
        | '\x7d' :: rem => some (Json.obj [], rem)
        | s2 =>
          match parseFields f s2 with
          | some (fs, rem) => some (Json.obj fs, rem)
          | none => none := rfl
  rw [h0, skipWs_not c l hnw]
  split
  · next rem heq =>
      injection heq with h1 h2
      exact absurd h1 hne
  · rfl

theorem parseElems_step (g : Nat) (s : List Char) :
    parseElems (g + 1) s
      = match parseVal g s with
        | none => none
        | some (v, rem) =>
          match skipWs rem with
          | ',' :: rem2 =>
            match parseElems g rem2 with
            | some (vs, rem3) => some (v :: vs, rem3)
            | none => none
          | ']' :: rem2 => some ([v], rem2)
          | _ => none := rfl

theorem parseFields_step (g : Nat) (l : List Char) :
    parseFields (g + 1) ('"' :: l)
      = match parseStrAux false l with
        | none => none
        | some (k, rem) =>
          match skipWs rem with
          | ':' :: rem2 =>
            match parseVal g rem2 with
            | none => none
            | some (v, rem3) =>
              match skipWs rem3 with
              | ',' :: rem4 =>
                match parseFields g rem4 with
                | some (fs, rem5) => some ((String.mk k, v) :: fs, rem5)
                | none => none
              | '\x7d' :: rem4 => some ([(String.mk k, v)], rem4)
              | _ => none
          | _ => none := rfl

theorem headOk_ws (c : Char) (h : headOk c = true) : isWsChar c = false := by
  simp only [headOk, Bool.and_eq_true, Bool.not_eq_eq_eq_not, Bool.not_true] at h
  exact h.1.1

theorem headOk_rb (c : Char) (h : headOk c = true) : ¬ c = ']' := by
  simp only [headOk, Bool.and_eq_true, Bool.not_eq_eq_eq_not, Bool.not_true,
    decide_eq_false_iff_not] at h
  exact h.1.2

theorem headOk_rc (c : Char) (h : headOk c = true) : ¬ c = '\x7d' := by
  simp only [headOk, Bool.and_eq_true, Bool.not_eq_eq_eq_not, Bool.not_true,
    decide_eq_false_iff_not] at h
  exact h.2

theorem headOk_of_digit (c : Char) (hc : c.isDigit = true) : headOk c = true := by
  have h1 := digit_not_ws c hc
  have h2 : ¬ c = ']' := by
    intro h
    subst h
    exact absurd hc (by decide)
  have h3 : ¬ c = '\x7d' := by
    intro h
    subst h
    exact absurd hc (by decide)
  simp [headOk, h1, h2, h3]

theorem printNat_head (m : Nat) :
    ∃ c cs, (printNat m).data = c :: cs ∧ c.isDigit = true := by
  cases hd : (printNat m).data with
  | nil => exact absurd hd (printNatAux_ne_nil m (m + 1) (by omega))
  | cons c cs =>
    refine ⟨c, cs, rfl, ?_⟩
    have hall := printNatAux_all_digits m (m + 1) (by omega)
    have he : (printNat m).data = printNatAux (m + 1) m := rfl
    rw [← he, hd] at hall
    exact hall c (by simp)

/-- Every serialized value starts with a non-whitespace character that is
neither a closing bracket nor a closing brace. -/
theorem marshal_head (v : Json) :
    ∃ c cs, (marshal v).data = c :: cs ∧ headOk c = true := by
  cases v with
  | null => exact ⟨'n', _, rfl, rfl⟩
  | bool b => cases b with
    | true => exact ⟨'t', _, rfl, rfl⟩
    | false => exact ⟨'f', _, rfl, rfl⟩
  | str s => exact ⟨'"', _, rfl, rfl⟩
  | arr xs => exact ⟨'[', _, rfl, rfl⟩
  | obj fs => exact ⟨'\x7b', _, rfl, rfl⟩
  | num n =>
    by_cases hn : n < 0
    · refine ⟨'-', (printNat n.natAbs).data, ?_, rfl⟩
      simp [marshal, printInt, if_pos hn, strData_append]
    · obtain ⟨c, cs, hd, hc⟩ := printNat_head n.natAbs
      refine ⟨c, cs, ?_, headOk_of_digit c hc⟩
      simpa [marshal, printInt, if_neg hn] using hd

theorem strMk_data (s : String) : String.mk s.data = s := rfl

theorem parseElems_last (g : Nat) (s l : List Char) (x : Json)
    (h : parseVal g s = some (x, ']' :: l)) :
    parseElems (g + 1) s = some ([x], l) := by
  rw [parseElems_step g, h]
  rfl

theorem parseElems_cons (g : Nat) (s T l : List Char) (x : Json) (r : List Json)
    (h1 : parseVal g s = some (x, ',' :: T))
    (h2 : parseElems g T = some (r, l)) :
    parseElems (g + 1) s = some (x :: r, l) := by
  rw [parseElems_step g, h1]
  show (match parseElems g T with
        | some (vs, rem3) => some (x :: vs, rem3)
        | none => none) = some (x :: r, l)
  rw [h2]

theorem parseFields_last (g : Nat) (kt T l kk : List Char) (v : Json)
    (hk : parseStrAux false kt = some (kk, ':' :: T))
    (hv : parseVal g T = some (v, '\x7d' :: l)) :
    parseFields (g + 1) ('"' :: kt) = some ([(String.mk kk, v)], l) := by
  rw [parseFields_step g, hk]
  show (match parseVal g T with
        | none => none
        | some (w, rem3) =>
          match skipWs rem3 with
          | ',' :: rem4 =>
            match parseFields g rem4 with
            | some (fs, rem5) => some ((String.mk kk, w) :: fs, rem5)
            | none => none
          | '\x7d' :: rem4 => some ([(String.mk kk, w)], rem4)
          | _ => none) = some ([(String.mk kk, v)], l)
  rw [hv]
  rfl

theorem parseFields_cons (g : Nat) (kt T T2 l kk : List Char) (v : Json)
    (r : List (String × Json))
    (hk : parseStrAux false kt = some (kk, ':' :: T))
    (hv : parseVal g T = some (v, ',' :: T2))
    (hr : parseFields g T2 = some (r, l)) :
    parseFields (g + 1) ('"' :: kt) = some ((String.mk kk, v) :: r, l) := by
  rw [parseFields_step g, hk]
  show (match parseVal g T with
        | none => none
        | some (w, rem3) =>
          match skipWs rem3 with
          | ',' :: rem4 =>
            match parseFields g rem4 with
            | some (fs, rem5) => some ((String.mk kk, w) :: fs, rem5)
            | none => none
          | '\x7d' :: rem4 => some ([(String.mk kk, w)], rem4)
          | _ => none) = some ((String.mk kk, v) :: r, l)
  rw [hv]
  show (match parseFields g T2 with
        | some (fs, rem5) => some ((String.mk kk, v) :: fs, rem5)
        | none => none) = some ((String.mk kk, v) :: r, l)
  rw [hr]

theorem marshalElems_head (x : Json) (xs : List Json) :
    ∃ c t, (marshalElems (x :: xs)).data = c :: t ∧ headOk c = true := by
  obtain ⟨c, cs, hd, hok⟩ := marshal_head x
  cases xs with
  | nil =>
    refine ⟨c, cs, ?_, hok⟩
    rw [show marshalElems [x] = marshal x from rfl, hd]
  | cons y ys =>
    refine ⟨c, cs ++ (',' :: (marshalElems (y :: ys)).data), ?_, hok⟩
    rw [show marshalElems (x :: y :: ys) = marshal x ++ "," ++ marshalElems (y :: ys)
      from rfl, strData_append, strData_append, List.append_assoc, hd]
    rfl

theorem skipWs_sp (s : List Char) : skipWs (' ' :: s) = skipWs s := by
  simp [skipWs, isWsChar]

/-- A single leading space never changes what a value parses to. -/
theorem parseVal_sp (fuel : Nat) (s : List Char) :
    parseVal fuel (' ' :: s) = parseVal fuel s := by
  cases fuel with
  | zero => rfl
  | succ f => simp only [parseVal, skipWs_sp]

/-- Opening an object whose first key follows a newline and a tab (the
template's member separator). -/
theorem parseVal_obj_nlt (f : Nat) (l : List Char) :
    parseVal (f + 1) ('\x7b' :: '\n' :: '\t' :: '"' :: l)
      = match parseFields f ('"' :: l) with
        | some (fs, rem) => some (Json.obj fs, rem)
        | none => none := rfl

/-- A member list whose first key follows a newline and a tab. -/
theorem parseFields_nlt (g : Nat) (l : List Char) :
    parseFields (g + 1) ('\n' :: '\t' :: '"' :: l)
      = parseFields (g + 1) ('"' :: l) := rfl

/-- Closing a one-member tail whose value is followed by a newline before
the closing brace (the template's last member). -/
theorem parseFields_last_nl (g : Nat) (kt T l kk : List Char) (v : Json)
    (hk : parseStrAux false kt = some (kk, ':' :: T))
    (hv : parseVal g T = some (v, '\n' :: '\x7d' :: l)) :
    parseFields (g + 1) ('"' :: kt) = some ([(String.mk kk, v)], l) := by
  rw [parseFields_step g, hk]
  show (match parseVal g T with
        | none => none
        | some (w, rem3) =>
          match skipWs rem3 with
          | ',' :: rem4 =>
            match parseFields g rem4 with
            | some (fs, rem5) => some ((String.mk kk, w) :: fs, rem5)
            | none => none
          | '\x7d' :: rem4 => some ([(String.mk kk, w)], rem4)
          | _ => none) = some ([(String.mk kk, v)], l)
  rw [hv]
  rfl

/-- The template's literal query value parses to the spec's query. -/
theorem parseVal_qvalT (f : Nat) (rest : List Char) :
    parseVal (f + 7) (qvalT.data ++ rest) = some (qInner, rest) := rfl

/-- The template's literal sort value parses to the spec's sort clause. -/
theorem parseVal_svalT (f : Nat) (rest : List Char) :
    parseVal (f + 5) (svalT.data ++ rest) = some (sInner, rest) := rfl

/-- A rendered natural number parses back to itself when the continuation
does not begin with a digit. -/
theorem parseVal_printNat (f m : Nat) (rest : List Char) (h : noDigitHead rest) :
    parseVal (f + 1) ((printNat m).data ++ rest)
      = some (Json.num (Int.ofNat m), rest) := by
  obtain ⟨c, cs, hd, hc⟩ := printNat_head m
  rw [hd, List.cons_append, parseVal_digit_step f c _ hc, ← List.cons_append, ← hd,
    parseDigits_printNat m rest h]

/-- A one-element string array whose element is interpolated raw (the
rendered `search_after` clause) parses to the array of that string,
provided the interpolated characters hold no quote and no backslash. -/
theorem parseVal_saArr (f : Nat) (cs rest : List Char)
    (hc : ∀ ch ∈ cs, ¬ ch = '"' ∧ ¬ ch = '\\') :
    parseVal (f + 3) ('[' :: '"' :: (cs ++ '"' :: ']' :: rest))
      = some (Json.arr [Json.str (String.mk cs)], rest) := by
  have h0 : parseVal (f + 3) ('[' :: '"' :: (cs ++ '"' :: ']' :: rest))
      = match parseElems (f + 2) ('"' :: (cs ++ '"' :: ']' :: rest)) with
        | some (vs, rem) => some (Json.arr vs, rem)
        | none => none := rfl
  have h1 : parseVal (f + 1) ('"' :: (cs ++ '"' :: ']' :: rest))
      = some (Json.str (String.mk cs), ']' :: rest) := by
    rw [parseVal_str_step, parseStr_plain cs (']' :: rest) hc]
  have h2 : parseElems (f + 2) ('"' :: (cs ++ '"' :: ']' :: rest))
      = some ([Json.str (String.mk cs)], rest) :=
    parseElems_last (f + 1) _ rest (Json.str (String.mk cs)) h1
  rw [h0, h2]

mutual

theorem rtVal : ∀ (v : Json) (fuel : Nat) (rest : List Char),
    jsonOkJ v = true → noDigitHead rest → fuelNeed v ≤ fuel →
    parseVal fuel ((marshal v).data ++ rest) = some (v, rest)
  | Json.null, fuel, rest, _, _, hf => by
    cases fuel with
    | zero => simp [fuelNeed] at hf
    | succ f => exact parseVal_null f rest
  | Json.bool true, fuel, rest, _, _, hf => by
    cases fuel with
    | zero => simp [fuelNeed] at hf
    | succ f => exact parseVal_true f rest
  | Json.bool false, fuel, rest, _, _, hf => by
    cases fuel with
    | zero => simp [fuelNeed] at hf
    | succ f => exact parseVal_false f rest
  | Json.num n, fuel, rest, _, hnd, hf => by
    cases fuel with
    | zero => simp [fuelNeed] at hf
    | succ f =>
      by_cases hn : n < 0
      · have hm : (marshal (Json.num n)).data = '-' :: (printNat n.natAbs).data := by
          simp [marshal, printInt, if_pos hn, strData_append]
        rw [hm, List.cons_append, parseVal_neg_step,
          parseDigits_printNat n.natAbs rest hnd]
        have hval : -Int.ofNat n.natAbs = n := by
          show -((n.natAbs : Nat) : Int) = n
          omega
        show some (Json.num (-Int.ofNat n.natAbs), rest) = some (Json.num n, rest)
        rw [hval]
      · have hm : (marshal (Json.num n)).data = (printNat n.natAbs).data := by
          simp [marshal, printInt, if_neg hn]
        cases hd : (printNat n.natAbs).data with
        | nil => exact absurd hd (printNatAux_ne_nil _ _ (by omega))
        | cons c cs =>
          have hall := printNatAux_all_digits n.natAbs (n.natAbs + 1) (by omega)
          have hdata : (printNat n.natAbs).data = printNatAux (n.natAbs + 1) n.natAbs := rfl
          rw [← hdata, hd] at hall
          have hc : c.isDigit = true := hall c (by simp)
          rw [hm, hd, List.cons_append, parseVal_digit_step f c (cs ++ rest) hc,
            ← List.cons_append, ← hd, parseDigits_printNat n.natAbs rest hnd]
          have hval : Int.ofNat n.natAbs = n := by
            show ((n.natAbs : Nat) : Int) = n
            omega
          show some (Json.num (Int.ofNat n.natAbs), rest) = some (Json.num n, rest)
          rw [hval]
  | Json.str s, fuel, rest, hp, _, hf => by
    cases fuel with
    | zero => simp [fuelNeed] at hf
    | succ f =>
      have hm : (marshal (Json.str s)).data ++ rest
          = '"' :: ((escString s).data ++ ('"' :: rest)) := by
        simp [marshal, strData_append]
      rw [hm, parseVal_str_step]
      have hok : strOk s = true := by
        simpa [jsonOkJ] using hp
      rw [escString_parse s hok rest]
  | Json.arr [], fuel, rest, _, _, hf => by
    cases fuel with
    | zero => simp [fuelNeed] at hf
    | succ f => exact parseVal_arr_nil f rest
  | Json.arr (x :: xs), fuel, rest, hp, hnd, hf => by
    cases fuel with
    | zero => simp [fuelNeed] at hf
    | succ f =>
      have hm : (marshal (Json.arr (x :: xs))).data ++ rest
          = '[' :: ((marshalElems (x :: xs)).data ++ (']' :: rest)) := by
        simp [marshal, strData_append]
      obtain ⟨c, t, hd, hok⟩ := marshalElems_head x xs
      have hpe : jsonOkE (x :: xs) = true := by simpa [jsonOkJ] using hp
      have hfe : fuelNeedE (x :: xs) ≤ f := by
        simp only [fuelNeed] at hf
        omega
      rw [hm, hd, List.cons_append,
        parseVal_arr_step f c _ (headOk_ws c hok) (headOk_rb c hok),
        ← List.cons_append, ← hd, rtElems x xs f rest hpe hfe]
  | Json.obj [], fuel, rest, _, _, hf => by
    cases fuel with
    | zero => simp [fuelNeed] at hf
    | succ f => exact parseVal_obj_nil f rest
  | Json.obj (f0 :: fs), fuel, rest, hp, hnd, hf => by
    cases fuel with
    | zero => simp [fuelNeed] at hf
    | succ f =>
      have hm : (marshal (Json.obj (f0 :: fs))).data ++ rest
          = '\x7b' :: ((marshalFields (f0 :: fs)).data ++ ('\x7d' :: rest)) := by
        simp [marshal, strData_append]
      have hd : ∃ t, (marshalFields (f0 :: fs)).data = '"' :: t := by
        cases fs with
        | nil =>
          refine ⟨((escString f0.1).data ++ ('"' :: ':' :: (marshal f0.2).data)), ?_⟩
          rw [show marshalFields [f0]
            = "\"" ++ escString f0.1 ++ "\":" ++ marshal f0.2 from rfl]
          simp [strData_append, List.append_assoc]
        | cons f1 fs =>
          refine ⟨((escString f0.1).data ++ ('"' :: ':' :: ((marshal f0.2).data
            ++ (',' :: (marshalFields (f1 :: fs)).data)))), ?_⟩
          rw [show marshalFields (f0 :: f1 :: fs)
            = "\"" ++ escString f0.1 ++ "\":" ++ marshal f0.2 ++ ","
              ++ marshalFields (f1 :: fs) from rfl]
          simp [strData_append, List.append_assoc]
      obtain ⟨t, hd⟩ := hd
      have hpf : jsonOkF (f0 :: fs) = true := by simpa [jsonOkJ] using hp
      have hff : fuelNeedF (f0 :: fs) ≤ f := by
        simp only [fuelNeed] at hf
        omega
      rw [hm, hd, List.cons_append,
        parseVal_obj_step f '"' _ (by decide) (by decide),
        ← List.cons_append, ← hd, rtFields f0 fs f rest hpf hff]
  termination_by v _ _ => sizeOf v
  decreasing_by all_goals (simp; try omega)

theorem rtElems : ∀ (x : Json) (xs : List Json) (fuel : Nat) (rest : List Char),
    jsonOkE (x :: xs) = true → fuelNeedE (x :: xs) ≤ fuel →
    parseElems fuel ((marshalElems (x :: xs)).data ++ ']' :: rest)
      = some (x :: xs, rest)
  | x, [], fuel, rest, hp, hf => by
    have hpx : jsonOkJ x = true := by
      simpa [jsonOkE, Bool.and_eq_true] using hp
    cases fuel with
    | zero =>
      simp only [fuelNeedE] at hf
      omega
    | succ g =>
      have hfx : fuelNeed x ≤ g := by
        simp only [fuelNeedE] at hf
        omega
      rw [show marshalElems [x] = marshal x from rfl]
      exact parseElems_last g _ rest x (rtVal x g (']' :: rest) hpx rfl hfx)
  | x, y :: ys, fuel, rest, hp, hf => by
    have hpx : jsonOkJ x = true ∧ jsonOkE (y :: ys) = true := by
      simpa [jsonOkE, Bool.and_eq_true] using hp
    cases fuel with
    | zero =>
      simp only [fuelNeedE] at hf
      omega
    | succ g =>
      have hfx : fuelNeed x ≤ g ∧ fuelNeedE (y :: ys) ≤ g := by
        simp only [fuelNeedE] at hf ⊢
        omega
      have hme : (marshalElems (x :: y :: ys)).data ++ ']' :: rest
          = (marshal x).data ++ (',' :: ((marshalElems (y :: ys)).data ++ ']' :: rest)) := by
        rw [show marshalElems (x :: y :: ys)
          = marshal x ++ "," ++ marshalElems (y :: ys) from rfl,
          strData_append, strData_append, List.append_assoc, List.append_assoc]
        rfl
      rw [hme]
      exact parseElems_cons g _ _ rest x (y :: ys)
        (rtVal x g _ hpx.1 rfl hfx.1)
        (rtElems y ys g rest hpx.2 hfx.2)
  termination_by x xs _ _ => 1 + sizeOf x + sizeOf xs
  decreasing_by all_goals (simp; try omega)

theorem rtFields : ∀ (f0 : String × Json) (fs : List (String × Json)) (fuel : Nat)
    (rest : List Char),
    jsonOkF (f0 :: fs) = true → fuelNeedF (f0 :: fs) ≤ fuel →
    parseFields fuel ((marshalFields (f0 :: fs)).data ++ '\x7d' :: rest)
      = some (f0 :: fs, rest)
  | f0, [], fuel, rest, hp, hf => by
    have hpx : strOk f0.1 = true ∧ jsonOkJ f0.2 = true := by
      simpa [jsonOkF, Bool.and_eq_true] using hp
    cases fuel with
    | zero =>
      simp only [fuelNeedF] at hf
      omega
    | succ g =>
      have hfx : fuelNeed f0.2 ≤ g := by
        simp only [fuelNeedF] at hf
        omega
      have hmf : (marshalFields [f0]).data ++ '\x7d' :: rest
          = '"' :: ((escString f0.1).data
              ++ ('"' :: (':' :: ((marshal f0.2).data ++ '\x7d' :: rest)))) := by
        rw [show marshalFields [f0]
          = "\"" ++ escString f0.1 ++ "\":" ++ marshal f0.2 from rfl]
        simp [strData_append, List.append_assoc]
      rw [hmf]
      have hk : parseStrAux false ((escString f0.1).data
          ++ ('"' :: (':' :: ((marshal f0.2).data ++ '\x7d' :: rest))))
          = some (f0.1.data, ':' :: ((marshal f0.2).data ++ '\x7d' :: rest)) :=
        escString_parse f0.1 hpx.1 _
      have hres := parseFields_last g _ _ rest f0.1.data f0.2 hk
        (rtVal f0.2 g ('\x7d' :: rest) hpx.2 rfl hfx)
      rw [strMk_data] at hres
      simpa using hres
  | f0, f1 :: fs, fuel, rest, hp, hf => by
    have hpx : (strOk f0.1 = true
        ∧ jsonOkJ f0.2 = true) ∧ jsonOkF (f1 :: fs) = true := by
      simpa [jsonOkF, Bool.and_eq_true] using hp
    cases fuel with
    | zero =>
      simp only [fuelNeedF] at hf
      omega
    | succ g =>
      have hfx : fuelNeed f0.2 ≤ g ∧ fuelNeedF (f1 :: fs) ≤ g := by
        simp only [fuelNeedF] at hf ⊢
        omega
      have hmf : (marshalFields (f0 :: f1 :: fs)).data ++ '\x7d' :: rest
          = '"' :: ((escString f0.1).data
              ++ ('"' :: (':' :: ((marshal f0.2).data
                ++ (',' :: ((marshalFields (f1 :: fs)).data ++ '\x7d' :: rest)))))) := by
        rw [show marshalFields (f0 :: f1 :: fs)
          = "\"" ++ escString f0.1 ++ "\":" ++ marshal f0.2 ++ ","
            ++ marshalFields (f1 :: fs) from rfl]
        simp [strData_append, List.append_assoc]
      rw [hmf]
      have hk : parseStrAux false ((escString f0.1).data
          ++ ('"' :: (':' :: ((marshal f0.2).data
            ++ (',' :: ((marshalFields (f1 :: fs)).data ++ '\x7d' :: rest))))))
          = some (f0.1.data, ':' :: ((marshal f0.2).data
              ++ (',' :: ((marshalFields (f1 :: fs)).data ++ '\x7d' :: rest)))) :=
        escString_parse f0.1 hpx.1.1 _
      have hres := parseFields_cons g _ _ _ rest f0.1.data f0.2 (f1 :: fs) hk
        (rtVal f0.2 g _ hpx.1.2 rfl hfx.1)
        (rtFields f1 fs g rest hpx.2 hfx.2)
      rw [strMk_data] at hres
      simpa using hres
  termination_by f0 fs _ _ => 1 + sizeOf f0 + sizeOf fs
  decreasing_by all_goals (obtain ⟨k, v⟩ := f0; simp; try omega)

end

theorem strLen_data (s : String) : s.length = s.data.length := rfl

theorem printNat_len (m : Nat) : 1 ≤ (printNat m).length := by
  rw [strLen_data]
  have h := printNatAux_ne_nil m (m + 1) (by omega)
  have hd : (printNat m).data = printNatAux (m + 1) m := rfl
  rw [hd]
  cases hx : printNatAux (m + 1) m with
  | nil => exact absurd hx h
  | cons c cs => simp

mutual

theorem fuelNeed_le : ∀ v : Json, fuelNeed v ≤ (marshal v).length
  | Json.null => by decide
  | Json.bool true => by decide
  | Json.bool false => by decide
  | Json.num n => by
    show fuelNeed (Json.num n) ≤ (printInt n).length
    rw [printInt]
    by_cases hn : n < 0
    · rw [if_pos hn]
      have := printNat_len n.natAbs
      have e1 : ("-" : String).length = 1 := rfl
      simp only [fuelNeed, String.length_append, e1]
      omega
    · rw [if_neg hn]
      have := printNat_len n.natAbs
      simp only [fuelNeed]
      omega
  | Json.str s => by
    show fuelNeed (Json.str s) ≤ ("\"" ++ escString s ++ "\"").length
    have e1 : ("\"" : String).length = 1 := rfl
    simp only [fuelNeed, String.length_append, e1]
    omega
  | Json.arr xs => by
    show 1 + fuelNeedE xs ≤ ("[" ++ marshalElems xs ++ "]").length
    have := fuelNeedE_le xs
    have e1 : ("[" : String).length = 1 := rfl
    have e2 : ("]" : String).length = 1 := rfl
    simp only [String.length_append, e1, e2]
    omega
  | Json.obj fs => by
    show 1 + fuelNeedF fs ≤ ("\x7b" ++ marshalFields fs ++ "\x7d").length
    have := fuelNeedF_le fs
    have e1 : ("\x7b" : String).length = 1 := rfl
    have e2 : ("\x7d" : String).length = 1 := rfl
    simp only [String.length_append, e1, e2]
    omega
  termination_by v => sizeOf v
  decreasing_by all_goals (simp; try omega)

theorem fuelNeedE_le : ∀ xs : List Json, fuelNeedE xs ≤ (marshalElems xs).length + 1
  | [] => by decide
  | [x] => by
    show 1 + fuelNeed x + fuelNeedE [] ≤ (marshal x).length + 1
    have := fuelNeed_le x
    simp only [fuelNeedE]
    omega
  | x :: y :: ys => by
    show 1 + fuelNeed x + fuelNeedE (y :: ys)
      ≤ (marshal x ++ "," ++ marshalElems (y :: ys)).length + 1
    have h1 := fuelNeed_le x
    have h2 := fuelNeedE_le (y :: ys)
    have e1 : ("," : String).length = 1 := rfl
    simp only [String.length_append, e1]
    omega
  termination_by xs => sizeOf xs
  decreasing_by all_goals (simp; try omega)

theorem fuelNeedF_le : ∀ fs : List (String × Json), fuelNeedF fs ≤ (marshalFields fs).length + 1
  | [] => by decide
  | [f0] => by
    show 1 + fuelNeed f0.2 + fuelNeedF []
      ≤ ("\"" ++ escString f0.1 ++ "\":" ++ marshal f0.2).length + 1
    have := fuelNeed_le f0.2
    have e1 : ("\"" : String).length = 1 := rfl
    have e2 : ("\":" : String).length = 2 := rfl
    simp only [fuelNeedF, String.length_append, e1, e2]
    omega
  | f0 :: f1 :: fs => by
    show 1 + fuelNeed f0.2 + fuelNeedF (f1 :: fs)
      ≤ ("\"" ++ escString f0.1 ++ "\":" ++ marshal f0.2 ++ ","
          ++ marshalFields (f1 :: fs)).length + 1
    have h1 := fuelNeed_le f0.2
    have h2 := fuelNeedF_le (f1 :: fs)
    have e1 : ("\"" : String).length = 1 := rfl
    have e2 : ("\":" : String).length = 2 := rfl
    have e3 : ("," : String).length = 1 := rfl
    simp only [String.length_append, e1, e2, e3]
    omega
  termination_by fs => sizeOf fs
  decreasing_by all_goals (try obtain ⟨k, v⟩ := f0) <;> (simp; try omega)

end

theorem digitChar_ne_nl (m : Nat) (h : m < 16) : ¬ Nat.digitChar m = '\n' := by
  interval_cases m <;> decide

theorem goEscChar_no_nl (c : Char) : ¬ '\n' ∈ goEscChar c := by
  intro hm
  rw [goEscChar] at hm
  by_cases h1 : c = '"'
  · rw [if_pos h1] at hm
    exact absurd hm (by decide)
  rw [if_neg h1] at hm
  by_cases h2 : c = '\\'
  · rw [if_pos h2] at hm
    exact absurd hm (by decide)
  rw [if_neg h2] at hm
  by_cases h3 : goPrint c = true
  · rw [if_pos h3] at hm
    simp only [List.mem_singleton] at hm
    rw [← hm] at h3
    exact absurd h3 (by decide)
  rw [if_neg h3] at hm
  by_cases h4 : c = '\x07'
  · rw [if_pos h4] at hm
    exact absurd hm (by decide)
  rw [if_neg h4] at hm
  by_cases h5 : c = '\x08'
  · rw [if_pos h5] at hm
    exact absurd hm (by decide)
  rw [if_neg h5] at hm
  by_cases h6 : c = '\x0c'
  · rw [if_pos h6] at hm
    exact absurd hm (by decide)
  rw [if_neg h6] at hm
  by_cases h7 : c = '\n'
  · rw [if_pos h7] at hm
    exact absurd hm (by decide)
  rw [if_neg h7] at hm
  by_cases h8 : c = '\r'
  · rw [if_pos h8] at hm
    exact absurd hm (by decide)
  rw [if_neg h8] at hm
  by_cases h9 : c = '\t'
  · rw [if_pos h9] at hm
    exact absurd hm (by decide)
  rw [if_neg h9] at hm
  by_cases h10 : c = '\x0b'
  · rw [if_pos h10] at hm
    exact absurd hm (by decide)
  rw [if_neg h10] at hm
  simp only [List.mem_cons, List.not_mem_nil, or_false] at hm
  rcases hm with h | h | h | h
  · exact absurd h (by decide)
  · exact absurd h (by decide)
  · exact absurd h.symm (digitChar_ne_nl _ (by omega))
  · exact absurd h.symm (digitChar_ne_nl _ (by omega))

theorem goEsc_foldr_no_nl (cs : List Char) :
    ¬ '\n' ∈ cs.foldr (fun c acc => goEscChar c ++ acc) [] := by
  induction cs with
  | nil => simp
  | cons c cs ih =>
    simp only [List.foldr_cons, List.mem_append]
    intro h
    rcases h with h | h
    · exact goEscChar_no_nl c h
    · exact ih h

theorem escString_no_nl (s : String) : ¬ '\n' ∈ (escString s).data := by
  by_cases hsp : hasSpecialChars s = true
  · have hd : (escString s).data
        = s.data.foldr (fun c acc => goEscChar c ++ acc) [] := by
      simp only [escString, if_pos hsp]
    rw [hd]
    exact goEsc_foldr_no_nl s.data
  · have hd : (escString s).data = s.data := by
      simp only [escString, if_neg hsp]
    rw [hd]
    intro h
    apply hsp
    simp only [hasSpecialChars, List.any_eq_true]
    exact ⟨'\n', h, by decide⟩

theorem printNat_no_nl (m : Nat) : ¬ '\n' ∈ (printNat m).data := by
  intro h
  have hall := printNatAux_all_digits m (m + 1) (by omega)
  have hd : (printNat m).data = printNatAux (m + 1) m := rfl
  rw [hd] at h
  exact absurd (hall _ h) (by decide)

mutual

theorem marshal_no_nl : ∀ v : Json, ¬ '\n' ∈ (marshal v).data
  | Json.null => by decide
  | Json.bool true => by decide
  | Json.bool false => by decide
  | Json.num n => by
    show ¬ '\n' ∈ (printInt n).data
    rw [printInt]
    by_cases hn : n < 0
    · rw [if_pos hn, strData_append]
      intro h
      rcases List.mem_append.mp h with h | h
      · exact absurd h (by decide)
      · exact printNat_no_nl n.natAbs h
    · rw [if_neg hn]
      exact printNat_no_nl n.natAbs
  | Json.str s => by
    show ¬ '\n' ∈ ("\"" ++ escString s ++ "\"").data
    simp only [strData_append, List.mem_append]
    intro h
    rcases h with (h | h) | h
    · exact absurd h (by decide)
    · exact escString_no_nl s h
    · exact absurd h (by decide)
  | Json.arr xs => by
    show ¬ '\n' ∈ ("[" ++ marshalElems xs ++ "]").data
    simp only [strData_append, List.mem_append]
    intro h
    rcases h with (h | h) | h
    · exact absurd h (by decide)
    · exact marshalElems_no_nl xs h
    · exact absurd h (by decide)
  | Json.obj fs => by
    show ¬ '\n' ∈ ("\x7b" ++ marshalFields fs ++ "\x7d").data
    simp only [strData_append, List.mem_append]
    intro h
    rcases h with (h | h) | h
    · exact absurd h (by decide)
    · exact marshalFields_no_nl fs h
    · exact absurd h (by decide)
  termination_by v => sizeOf v
  decreasing_by all_goals (simp; try omega)

theorem marshalElems_no_nl : ∀ xs : List Json, ¬ '\n' ∈ (marshalElems xs).data
  | [] => by decide
  | [x] => by
    show ¬ '\n' ∈ (marshal x).data
    exact marshal_no_nl x
  | x :: y :: ys => by
    show ¬ '\n' ∈ (marshal x ++ "," ++ marshalElems (y :: ys)).data
    simp only [strData_append, List.mem_append]
    intro h
    rcases h with (h | h) | h
    · exact marshal_no_nl x h
    · exact absurd h (by decide)
    · exact marshalElems_no_nl (y :: ys) h
  termination_by xs => sizeOf xs
  decreasing_by all_goals (simp; try omega)

theorem marshalFields_no_nl : ∀ fs : List (String × Json), ¬ '\n' ∈ (marshalFields fs).data
  | [] => by decide
  | [f0] => by
    show ¬ '\n' ∈ ("\"" ++ escString f0.1 ++ "\":" ++ marshal f0.2).data
    simp only [strData_append, List.mem_append]
    intro h
    rcases h with ((h | h) | h) | h
    · exact absurd h (by decide)
    · exact escString_no_nl f0.1 h
    · exact absurd h (by decide)
    · exact marshal_no_nl f0.2 h
  | f0 :: f1 :: fs => by
    show ¬ '\n' ∈ ("\"" ++ escString f0.1 ++ "\":" ++ marshal f0.2 ++ ","
        ++ marshalFields (f1 :: fs)).data
    simp only [strData_append, List.mem_append]
    intro h
    rcases h with ((((h | h) | h) | h) | h) | h
    · exact absurd h (by decide)
    · exact escString_no_nl f0.1 h
    · exact absurd h (by decide)
    · exact marshal_no_nl f0.2 h
    · exact absurd h (by decide)
    · exact marshalFields_no_nl (f1 :: fs) h
  termination_by fs => sizeOf fs
  decreasing_by all_goals (try obtain ⟨k, v⟩ := f0) <;> (simp; try omega)

end

theorem countCh_append (a b : String) (c : Char) :
    countCh (a ++ b) c = countCh a c + countCh b c := by
  simp [countCh, strData_append, List.count_append]

theorem countF_printNat (m : Nat) : countCh (printNat m) 'f' = 0 := by
  simp only [countCh, List.count_eq_zero]
  intro h
  have hall := printNatAux_all_digits m (m + 1) (by omega)
  have hd : (printNat m).data = printNatAux (m + 1) m := rfl
  rw [hd] at h
  exact absurd (hall _ h) (by decide)

theorem countF_tmplAfter (c : String) : 1 ≤ countCh (tmplAfter c) 'f' := by
  rw [tmplAfter, countCh_append, countCh_append]
  have e1 : countCh "\n\t\"search_after\": [\"" 'f' = 1 := rfl
  omega

theorem renderQuery_noSA (size : Nat) : ¬ hasSA (renderQuery size "") := by
  rintro ⟨c, pre, suf, heq⟩
  have hL : countCh (renderQuery size "") 'f' = 0 := by
    rw [renderQuery, if_neg (by simp)]
    rw [countCh_append, countCh_append, countCh_append, countCh_append]
    have e1 : countCh tmplA 'f' = 0 := rfl
    have e2 : countCh tmplB 'f' = 0 := rfl
    have e3 : countCh tmplC 'f' = 0 := rfl
    have e4 : countCh "" 'f' = 0 := rfl
    rw [e1, e2, e3, e4, countF_printNat]
  have hR : 1 ≤ countCh (pre ++ tmplAfter c ++ suf) 'f' := by
    rw [countCh_append, countCh_append]
    have := countF_tmplAfter c
    omega
  rw [heq] at hL
  omega

/-- The rendered query with no cursor parses to the spec document, at any
window size and any sufficient fuel. -/
theorem renderQuery_parse_aux0 (f W : Nat) :
    parseVal (f + 12) ((renderQuery W "").data)
      = some (specQueryDoc W none, []) := by
  have hsort : parseFields (f + 9) ('"' :: sortKT) = some ([("sort", sInner)], []) := by
    have hk : parseStrAux false sortKT
        = some (['s', 'o', 'r', 't'],
            ':' :: ' ' :: (svalT.data ++ ('\n' :: '\x7d' :: []))) := rfl
    have hv : parseVal (f + 8) (' ' :: (svalT.data ++ ('\n' :: '\x7d' :: [])))
        = some (sInner, '\n' :: '\x7d' :: []) := by
      rw [parseVal_sp]
      exact parseVal_svalT (f + 3) _
    exact parseFields_last_nl (f + 8) _ _ [] ['s', 'o', 'r', 't'] sInner hk hv
  have hquery : parseFields (f + 10) ('"' :: queryKT sortBlk)
      = some ([("query", qInner), ("sort", sInner)], []) := by
    have hk : parseStrAux false (queryKT sortBlk)
        = some (['q', 'u', 'e', 'r', 'y'],
            ':' :: ' ' :: (qvalT.data ++ (',' :: sortBlk))) := rfl
    have hv : parseVal (f + 9) (' ' :: (qvalT.data ++ (',' :: sortBlk)))
        = some (qInner, ',' :: sortBlk) := by
      rw [parseVal_sp]
      exact parseVal_qvalT (f + 2) _
    have hr : parseFields (f + 9) sortBlk = some ([("sort", sInner)], []) := by
      have he : parseFields (f + 9) sortBlk = parseFields (f + 9) ('"' :: sortKT) :=
        parseFields_nlt (f + 8) sortKT
      rw [he]
      exact hsort
    exact parseFields_cons (f + 9) _ _ _ [] ['q', 'u', 'e', 'r', 'y'] qInner _ hk hv hr
  have hsize : parseFields (f + 11) ('"' :: sizeKT W (queryBlk sortBlk))
      = some ([("size", Json.num (Int.ofNat W)), ("query", qInner), ("sort", sInner)],
          []) := by
    have hk : parseStrAux false (sizeKT W (queryBlk sortBlk))
        = some (['s', 'i', 'z', 'e'],
            ':' :: ' ' :: ((printNat W).data ++ (',' :: queryBlk sortBlk))) := rfl
    have hv : parseVal (f + 10) (' ' :: ((printNat W).data ++ (',' :: queryBlk sortBlk)))
        = some (Json.num (Int.ofNat W), ',' :: queryBlk sortBlk) := by
      rw [parseVal_sp]
      exact parseVal_printNat (f + 9) W (',' :: queryBlk sortBlk) rfl
    have hr : parseFields (f + 10) (queryBlk sortBlk)
        = some ([("query", qInner), ("sort", sInner)], []) := by
      have he : parseFields (f + 10) (queryBlk sortBlk)
          = parseFields (f + 10) ('"' :: queryKT sortBlk) :=
        parseFields_nlt (f + 9) (queryKT sortBlk)
      rw [he]
      exact hquery
    exact parseFields_cons (f + 10) _ _ _ [] ['s', 'i', 'z', 'e']
      (Json.num (Int.ofNat W)) _ hk hv hr
  have hshape : (renderQuery W "").data
      = '\x7b' :: '\n' :: '\t' :: '"' :: sizeKT W (queryBlk sortBlk) := by
    rw [renderQuery, if_neg (by simp)]
    rw [show tmplB = ",\n\t\"query\": " ++ qvalT ++ "," from rfl]
    rw [show tmplC = "\n\t\"sort\": " ++ svalT ++ "\n\x7d" from rfl]
    simp only [strData_append, List.append_assoc]
    simp only [sizeKT, queryBlk, queryKT, sortBlk, sortKT]
    rfl
  rw [hshape]
  have htop : parseVal (f + 12) ('\x7b' :: '\n' :: '\t' :: '"' :: sizeKT W (queryBlk sortBlk))
      = match parseFields (f + 11) ('"' :: sizeKT W (queryBlk sortBlk)) with
        | some (fs, rem) => some (Json.obj fs, rem)
        | none => none := parseVal_obj_nlt (f + 11) _
  rw [htop, hsize]
  rfl

/-- The rendered query with a non-empty cursor free of quotes and
backslashes parses to the spec document with the `search_after` clause,
at any window size and any sufficient fuel. -/
theorem renderQuery_parse_auxc (f W : Nat) (c : String)
    (hc : ∀ ch ∈ c.data, ¬ ch = '"' ∧ ¬ ch = '\\') (hne : ¬ c = "") :
    parseVal (f + 12) ((renderQuery W c).data)
      = some (specQueryDoc W (some c), []) := by
  have hsort : parseFields (f + 8) ('"' :: sortKT) = some ([("sort", sInner)], []) := by
    have hk : parseStrAux false sortKT
        = some (['s', 'o', 'r', 't'],
            ':' :: ' ' :: (svalT.data ++ ('\n' :: '\x7d' :: []))) := rfl
    have hv : parseVal (f + 7) (' ' :: (svalT.data ++ ('\n' :: '\x7d' :: [])))
        = some (sInner, '\n' :: '\x7d' :: []) := by
      rw [parseVal_sp]
      exact parseVal_svalT (f + 2) _
    exact parseFields_last_nl (f + 7) _ _ [] ['s', 'o', 'r', 't'] sInner hk hv
  have hsa : parseFields (f + 9) ('"' :: saKT c)
      = some ([("search_after", Json.arr [Json.str c]), ("sort", sInner)], []) := by
    have hk : parseStrAux false (saKT c)
        = some (['s', 'e', 'a', 'r', 'c', 'h', '_', 'a', 'f', 't', 'e', 'r'],
            ':' :: ' ' :: '[' :: '"' :: (c.data ++ ('"' :: ']' :: ',' :: sortBlk))) := rfl
    have hv : parseVal (f + 8)
        (' ' :: '[' :: '"' :: (c.data ++ ('"' :: ']' :: ',' :: sortBlk)))
        = some (Json.arr [Json.str c], ',' :: sortBlk) := by
      rw [parseVal_sp]
      exact parseVal_saArr (f + 5) c.data (',' :: sortBlk) hc
    have hr : parseFields (f + 8) sortBlk = some ([("sort", sInner)], []) := by
      have he : parseFields (f + 8) sortBlk = parseFields (f + 8) ('"' :: sortKT) :=
        parseFields_nlt (f + 7) sortKT
      rw [he]
      exact hsort
    exact parseFields_cons (f + 8) _ _ _ []
      ['s', 'e', 'a', 'r', 'c', 'h', '_', 'a', 'f', 't', 'e', 'r']
      (Json.arr [Json.str c]) _ hk hv hr
  have hquery : parseFields (f + 10) ('"' :: queryKT (saBlk c))
      = some ([("query", qInner), ("search_after", Json.arr [Json.str c]),
          ("sort", sInner)], []) := by
    have hk : parseStrAux false (queryKT (saBlk c))
        = some (['q', 'u', 'e', 'r', 'y'],
            ':' :: ' ' :: (qvalT.data ++ (',' :: saBlk c))) := rfl
    have hv : parseVal (f + 9) (' ' :: (qvalT.data ++ (',' :: saBlk c)))
        = some (qInner, ',' :: saBlk c) := by
      rw [parseVal_sp]
      exact parseVal_qvalT (f + 2) _
    have hr : parseFields (f + 9) (saBlk c)
        = some ([("search_after", Json.arr [Json.str c]), ("sort", sInner)], []) := by
      have he : parseFields (f + 9) (saBlk c) = parseFields (f + 9) ('"' :: saKT c) :=
        parseFields_nlt (f + 8) (saKT c)
      rw [he]
      exact hsa
    exact parseFields_cons (f + 9) _ _ _ [] ['q', 'u', 'e', 'r', 'y'] qInner _ hk hv hr
  have hsize : parseFields (f + 11) ('"' :: sizeKT W (queryBlk (saBlk c)))
      = some ([("size", Json.num (Int.ofNat W)), ("query", qInner),
          ("search_after", Json.arr [Json.str c]), ("sort", sInner)], []) := by
    have hk : parseStrAux false (sizeKT W (queryBlk (saBlk c)))
        = some (['s', 'i', 'z', 'e'],
            ':' :: ' ' :: ((printNat W).data ++ (',' :: queryBlk (saBlk c)))) := rfl
    have hv : parseVal (f + 10)
        (' ' :: ((printNat W).data ++ (',' :: queryBlk (saBlk c))))
        = some (Json.num (Int.ofNat W), ',' :: queryBlk (saBlk c)) := by
      rw [parseVal_sp]
      exact parseVal_printNat (f + 9) W (',' :: queryBlk (saBlk c)) rfl
    have hr : parseFields (f + 10) (queryBlk (saBlk c))
        = some ([("query", qInner), ("search_after", Json.arr [Json.str c]),
            ("sort", sInner)], []) := by
      have he : parseFields (f + 10) (queryBlk (saBlk c))
          = parseFields (f + 10) ('"' :: queryKT (saBlk c)) :=
        parseFields_nlt (f + 9) (queryKT (saBlk c))
      rw [he]
      exact hquery
    exact parseFields_cons (f + 10) _ _ _ [] ['s', 'i', 'z', 'e']
      (Json.num (Int.ofNat W)) _ hk hv hr
  have hshape : (renderQuery W c).data
      = '\x7b' :: '\n' :: '\t' :: '"' :: sizeKT W (queryBlk (saBlk c)) := by
    rw [renderQuery, if_pos hne]
    simp only [tmplAfter]
    rw [show tmplB = ",\n\t\"query\": " ++ qvalT ++ "," from rfl]
    rw [show tmplC = "\n\t\"sort\": " ++ svalT ++ "\n\x7d" from rfl]
    simp only [strData_append, List.append_assoc]
    simp only [sizeKT, queryBlk, queryKT, saBlk, saKT, sortBlk, sortKT]
    rfl
  rw [hshape]
  have htop : parseVal (f + 12)
      ('\x7b' :: '\n' :: '\t' :: '"' :: sizeKT W (queryBlk (saBlk c)))
      = match parseFields (f + 11) ('"' :: sizeKT W (queryBlk (saBlk c))) with
        | some (fs, rem) => some (Json.obj fs, rem)
        | none => none := parseVal_obj_nlt (f + 11) _
  rw [htop, hsize]
  rfl

/-- For every window size and every quote- and backslash-free cursor, the
rendered request body parses to exactly the spec's query document. -/
theorem renderQuery_parse (W : Nat) (c : String)
    (hc : ∀ ch ∈ c.data, ¬ ch = '"' ∧ ¬ ch = '\\') :
    parseJson (renderQuery W c)
      = some (specQueryDoc W (if c = "" then none else some c)) := by
  have hA : tmplA.length = 11 := rfl
  have hpn := printNat_len W
  have hlen : 12 ≤ (renderQuery W c).length + 1 := by
    rw [renderQuery]
    simp only [String.length_append]
    omega
  obtain ⟨f, hf⟩ : ∃ f, (renderQuery W c).length + 1 = f + 12 :=
    ⟨(renderQuery W c).length + 1 - 12, by omega⟩
  simp only [parseJson]
  rw [hf]
  by_cases hne : c = ""
  · subst hne
    rw [renderQuery_parse_aux0 f W]
    rfl
  · rw [renderQuery_parse_auxc f W c hc hne]
    have hcur : (if c = "" then none else some c) = some c := by simp [hne]
    rw [hcur]
    rfl

/-- C4 (amended): for every window size `W` and every cursor free of the
quote and backslash characters (the template interpolates the cursor raw,
with no escaping), the rendered request is exactly the spec's query
document - `size W`, the `bool`/`must`/`match_all` query,
`sort [{"_id": "asc"}]`, and a `search_after ["c"]` clause present if and
only if the cursor is non-empty;  a `search_after` clause occurs in the
text iff the cursor is non-empty;  and the very first request of a run is
rendered from the zero-valued context, hence carries no clause.  The
unamended claim, over every cursor, is refuted by
`claim4_cursor_quote`. -/
theorem claim4_query_shape :
    (∀ (size : Nat) (after : String),
        (∀ ch ∈ after.data, ¬ ch = '"' ∧ ¬ ch = '\\') →
        parseJson (renderQuery size after)
          = some (specQueryDoc size (if after = "" then none else some after)))
    ∧ (∀ (size : Nat) (after : String), hasSA (renderQuery size after) ↔ ¬ after = "")
    ∧ initCtx.after = ""
    ∧ (∀ (size : Nat) (r : Resp) (rs : List Resp),
        (producer size (r :: rs) initCtx).1.head? = some (renderQuery size "")) := by
  refine ⟨fun size after h => renderQuery_parse size after h, ?_, rfl, ?_⟩
  · intro size after
    constructor
    · intro h ha
      subst ha
      exact renderQuery_noSA size h
    · intro h
      refine ⟨after, tmplA ++ printNat size ++ tmplB, tmplC, ?_⟩
      rw [renderQuery, if_pos h]
  · intro size r rs
    exact producer_head size r rs initCtx

set_option maxRecDepth 4000 in
/-- C4 counterexample: a cursor holding a quote is interpolated raw into
the template, so the rendered request body is not valid JSON - it parses
to nothing, not to the spec's query document. -/
theorem claim4_cursor_quote :
    ¬ parseJson (renderQuery 1000 badCur) = some (specQueryDoc 1000 (some badCur)) := by
  intro h
  rw [show parseJson (renderQuery 1000 badCur) = none from rfl] at h
  exact Option.noConfusion h

theorem claim4_witness :
    parseJson (renderQuery 1000 "") = some (specQueryDoc 1000 none)
    ∧ parseJson (renderQuery 1000 idB) = some (specQueryDoc 1000 (some idB))
    ∧ hasSA (renderQuery 1000 idB)
    ∧ ¬ hasSA (renderQuery 1000 "")
    ∧ (producer 2 (Resp.mk 500 Json.null :: []) initCtx).1.head?
        = some (renderQuery 2 "") := by
  refine ⟨?_, ?_, (claim4_query_shape.2.1 1000 idB).mpr (by decide),
    fun h => absurd ((claim4_query_shape.2.1 1000 "").mp h) (by simp),
    claim4_query_shape.2.2.2 2 (Resp.mk 500 Json.null) []⟩
  · have h := claim4_query_shape.1 1000 "" (by decide)
    simpa using h
  · have h := claim4_query_shape.1 1000 idB (by decide)
    have he : (if idB = "" then none else some idB) = some idB := by decide
    rw [he] at h
    exact h
